import Mathlib

/-!
# Bench-Inventory data-access engine: shallow embedding

This file embeds the failover/synchronization engine of
`src/models/database.py` (class around `get_connection`, `update_asset`,
`record_scan`, `get_asset_current_status`, `delete_asset`,
`hard_delete_asset`, `flag_asset`, `unflag_asset`, `update_lease_info`,
`_record_operation`, `_sync_central_to_local`, `_sync_to_server`,
`_start_connectivity_checker`, `get_pending_changes_count`) and proves the
frozen specification claims about it.

Modelling conventions:
* SQL rows of the dynamically-updated `assets` table are association lists
  of column name to `Value` (the Python code builds its SQL from dynamic
  field dictionaries, so a column-generic row model is the faithful one).
* `scan_history` rows are fixed-shape records (`ScanRow`), since every
  INSERT into that table names the same six columns.
* `datetime.now()` is a strictly increasing `Nat` clock threaded through
  the state; each call of `now()` in the Python code consumes one tick.
  `isoformat` is an order-preserving injection from datetimes to strings,
  so the `Nat` timestamp stands for both representations.
* PostgreSQL availability during one operation is a `PgHealth` parameter:
  `up` (all remote calls succeed), `downAcquire` (acquiring a pooled
  connection raises, the failover path in `get_connection`), `downExec`
  (the connection is acquired but the first statement raises, the
  generic `except` path of the calling method).
-/

namespace BenchInventory

/-- A SQL value as it appears in the dynamically-built statements. -/
inductive Value where
  | s (v : String)
  | n (v : Nat)
  | b (v : Bool)
  | null
deriving DecidableEq, Repr

/-- A row of the `assets` table (or a sync-queue payload dictionary):
an association list from column name to value. -/
abbrev Row := List (String × Value)

/-- Look a column up in a row. -/
def rowLookup (r : Row) (k : String) : Option Value :=
  (r.find? (fun p => p.1 == k)).map (·.2)

/-- Set a column of a row (update in place if present, else append),
the dictionary-assignment seen at `asset_data['last_updated'] = ...`. -/
def rowSet (r : Row) (k : String) (v : Value) : Row :=
  if (r.find? (fun p => p.1 == k)).isSome then
    r.map (fun p => if p.1 == k then (k, v) else p)
  else
    r ++ [(k, v)]

/-- Remove a column from a row (`del asset_data_for_db['asset_tag']`). -/
def rowDrop (r : Row) (k : String) : Row :=
  r.filter (fun p => p.1 != k)

/-- Apply a SQL `UPDATE ... SET` list of assignments to one row. -/
def rowApply (r : Row) (upd : Row) : Row :=
  upd.foldl (fun acc p => rowSet acc p.1 p.2) r

/-- One `scan_history` row:
`(id, asset_id, status, timestamp, notes, tech_name, site)` as created in
`_initialize_sqlite_database` and inserted by `record_scan`. -/
structure ScanRow where
  id : Nat
  asset_id : String
  status : String
  timestamp : Nat
  notes : String
  tech_name : String
  site : Option String
deriving DecidableEq, Repr

/-- The dictionary returned by `get_asset_current_status`.  The Python
code returns the strings `Unknown` for the timestamp/technician when no
in/out history exists; `none` models those placeholder strings. -/
structure StatusInfo where
  status : String
  timestamp : Option Nat
  tech_name : Option String
  notes : String
  site : Option String
deriving DecidableEq, Repr

/-- Does this scan row count for status derivation of `aid`?
(the SQL filter `asset_id = ? AND status IN ('in', 'out')`). -/
def isInOutFor (aid : String) (r : ScanRow) : Bool :=
  r.asset_id == aid && (r.status == "in" || r.status == "out")

/-- `ORDER BY timestamp DESC LIMIT 1` over the rows passing `isInOutFor`:
the row of maximal timestamp (the first such row when timestamps tie). -/
def latestInOut (hist : List ScanRow) (aid : String) : Option ScanRow :=
  (hist.filter (isInOutFor aid)).foldl
    (fun best r =>
      match best with
      | none => some r
      | some b => if b.timestamp < r.timestamp then some r else some b)
    none

/-- The fallback dictionary `get_asset_current_status` returns when the
asset has no `in`/`out` history row at all. -/
def noHistoryStatus : StatusInfo :=
  { status := "out", timestamp := none, tech_name := none,
    notes := "No check-in/out history found", site := none }

/-- The dictionary `get_asset_current_status` builds from a fetched row. -/
def statusOfRow (r : ScanRow) : StatusInfo :=
  { status := r.status, timestamp := some r.timestamp,
    tech_name := some r.tech_name, notes := r.notes, site := r.site }

/-- Pure core of `get_asset_current_status` on a given history table:
latest `in`/`out` row if any, else the synthetic `out` dictionary. -/
def currentStatusOf (hist : List ScanRow) (aid : String) : StatusInfo :=
  match latestInOut hist aid with
  | some r => statusOfRow r
  | none => noHistoryStatus

/-! ## Helper lemmas about `latestInOut` -/

/-- The fold inside `latestInOut` keeps an element of maximal timestamp. -/
def maxStep (best : Option ScanRow) (r : ScanRow) : Option ScanRow :=
  match best with
  | none => some r
  | some b => if b.timestamp < r.timestamp then some r else some b

theorem latestInOut_eq_foldl (hist : List ScanRow) (aid : String) :
    latestInOut hist aid = (hist.filter (isInOutFor aid)).foldl maxStep none := by
  rfl

theorem foldl_maxStep_some (l : List ScanRow) (b : ScanRow) :
    ∃ r, l.foldl maxStep (some b) = some r := by
  induction l generalizing b with
  | nil => exact ⟨b, rfl⟩
  | cons x xs ih =>
      simp only [List.foldl_cons, maxStep]
      split
      · exact ih x
      · exact ih b

theorem foldl_maxStep_mem (l : List ScanRow) (b r : ScanRow)
    (h : l.foldl maxStep (some b) = some r) : r = b ∨ r ∈ l := by
  induction l generalizing b with
  | nil => simp only [List.foldl_nil, Option.some.injEq] at h; exact Or.inl h.symm
  | cons x xs ih =>
      simp only [List.foldl_cons, maxStep] at h
      split at h
      · rcases ih x h with h1 | h1
        · exact Or.inr (by simp [h1])
        · exact Or.inr (List.mem_cons_of_mem _ h1)
      · rcases ih b h with h1 | h1
        · exact Or.inl h1
        · exact Or.inr (List.mem_cons_of_mem _ h1)

theorem foldl_maxStep_ge (l : List ScanRow) (b r : ScanRow)
    (h : l.foldl maxStep (some b) = some r) :
    b.timestamp ≤ r.timestamp ∧ ∀ x ∈ l, x.timestamp ≤ r.timestamp := by
  induction l generalizing b with
  | nil =>
      simp only [List.foldl_nil, Option.some.injEq] at h
      subst h; exact ⟨le_refl _, by simp⟩
  | cons x xs ih =>
      simp only [List.foldl_cons, maxStep] at h
      split at h
      · rename_i hlt
        obtain ⟨h1, h2⟩ := ih x h
        refine ⟨le_trans (le_of_lt hlt) h1, ?_⟩
        intro y hy
        rcases List.mem_cons.mp hy with rfl | hy
        · exact h1
        · exact h2 y hy
      · rename_i hnlt
        obtain ⟨h1, h2⟩ := ih b h
        refine ⟨h1, ?_⟩
        intro y hy
        rcases List.mem_cons.mp hy with rfl | hy
        · exact le_trans (not_lt.mp hnlt) h1
        · exact h2 y hy

/-- On a non-empty filtered list, `latestInOut` returns a member of the
history matching the filter whose timestamp dominates all matching rows. -/
theorem latestInOut_spec (hist : List ScanRow) (aid : String) (r : ScanRow)
    (h : latestInOut hist aid = some r) :
    r ∈ hist ∧ isInOutFor aid r = true ∧
      ∀ x ∈ hist, isInOutFor aid x = true → x.timestamp ≤ r.timestamp := by
  rw [latestInOut_eq_foldl] at h
  rcases hl : hist.filter (isInOutFor aid) with _ | ⟨b, tl⟩
  · rw [hl] at h; simp at h
  · rw [hl] at h
    simp only [List.foldl_cons, maxStep] at h
    have hmem : r = b ∨ r ∈ tl := foldl_maxStep_mem tl b r h
    have hrmem : r ∈ hist.filter (isInOutFor aid) := by
      rw [hl]
      rcases hmem with rfl | hm
      · exact List.mem_cons_self _ _
      · exact List.mem_cons_of_mem _ hm
    have hr1 : r ∈ hist := (List.mem_filter.mp hrmem).1
    have hr2 : isInOutFor aid r = true := (List.mem_filter.mp hrmem).2
    refine ⟨hr1, hr2, ?_⟩
    intro x hx hxf
    have hxmem : x ∈ hist.filter (isInOutFor aid) := List.mem_filter.mpr ⟨hx, hxf⟩
    rw [hl] at hxmem
    obtain ⟨hb, htl⟩ := foldl_maxStep_ge tl b r h
    rcases List.mem_cons.mp hxmem with rfl | hm
    · exact hb
    · exact htl x hm

/-- `latestInOut` is `none` exactly when no row of the asset has status
`in` or `out`. -/
theorem latestInOut_eq_none_iff (hist : List ScanRow) (aid : String) :
    latestInOut hist aid = none ↔ hist.filter (isInOutFor aid) = [] := by
  rw [latestInOut_eq_foldl]
  constructor
  · intro h
    rcases hl : hist.filter (isInOutFor aid) with _ | ⟨b, tl⟩
    · rfl
    · rw [hl] at h
      simp only [List.foldl_cons, maxStep] at h
      obtain ⟨r, hr⟩ := foldl_maxStep_some tl b
      rw [hr] at h
      exact absurd h (by simp)
  · intro h; rw [h]; rfl

/-! ## Engine state -/

/-- One row of the local `sync_queue` table:
`(id, operation, table_name, data, timestamp)`.  `data` holds the JSON
payload; `none` models a payload on which `json.loads` raises. -/
structure QueueEntry where
  id : Nat
  operation : String
  table_name : String
  data : Option Row
  timestamp : Nat
deriving DecidableEq, Repr

/-- The local SQLite store: mirrored tables plus the durable sync queue.
`nextScanId` / `nextQueueId` model the AUTOINCREMENT counters. -/
structure LocalDB where
  assets : List Row
  history : List ScanRow
  queue : List QueueEntry
  nextScanId : Nat
  nextQueueId : Nat
deriving DecidableEq, Repr

/-- The remote PostgreSQL store (primary; replicas serve the same data). -/
structure RemoteDB where
  assets : List Row
  history : List ScanRow
  nextScanId : Nat
deriving DecidableEq, Repr

/-- The in-process engine state: the `using_local` / `pending_sync` flags
of the Python object, both stores, and the `datetime.now()` clock. -/
structure EngineState where
  usingLocal : Bool
  pendingSync : Bool
  localDB : LocalDB
  remote : RemoteDB
  clock : Nat
deriving DecidableEq, Repr

/-- Remote availability during one operation. -/
inductive PgHealth where
  | up
  | downAcquire
  | downExec
deriving DecidableEq, Repr

/-- Does `_get_pg_connection` raise under this health? -/
def acquireFails : PgHealth → Bool
  | .downAcquire => true
  | _ => false

/-- `get_connection`: try PostgreSQL first unless already local; on a
connect failure flip to local mode and set `pending_sync = True`. -/
def get_connection (s : EngineState) (h : PgHealth) : EngineState :=
  if !s.usingLocal && acquireFails h then
    { s with usingLocal := true, pendingSync := true }
  else
    s

/-- Find the `assets` row with the given `asset_id`. -/
def assetsFind (t : List Row) (aid : String) : Option Row :=
  t.find? (fun r => rowLookup r "asset_id" == some (.s aid))

/-- `UPDATE assets SET ... WHERE asset_id = ?`: apply the assignment
list to every row whose `asset_id` matches (at most one, by the PK). -/
def assetsUpdate (t : List Row) (aid : String) (upd : Row) : List Row :=
  t.map (fun r => if rowLookup r "asset_id" == some (.s aid) then rowApply r upd else r)

/-- `DELETE FROM assets WHERE asset_id = ?`. -/
def assetsDelete (t : List Row) (aid : String) : List Row :=
  t.filter (fun r => rowLookup r "asset_id" != some (.s aid))

/-- `_record_operation`: when in local mode, append one sync-queue entry
carrying the serialized mutation, and set `pending_sync = True`.
The queue timestamp is its own `datetime.now()` call. -/
def recordOperation (s : EngineState) (op tbl : String) (data : Row) : EngineState :=
  if !s.usingLocal then s
  else
    let e : QueueEntry :=
      { id := s.localDB.nextQueueId, operation := op, table_name := tbl,
        data := some data, timestamp := s.clock }
    { s with
        localDB := { s.localDB with
          queue := s.localDB.queue ++ [e],
          nextQueueId := s.localDB.nextQueueId + 1 },
        clock := s.clock + 1,
        pendingSync := true }

/-- The serialized dictionary `record_scan` hands to `_record_operation`
(the row columns with the timestamp converted to its ISO string). -/
def scanPayload (aid status tech notes : String) (site : Option String)
    (ts : Nat) : Row :=
  [("asset_id", .s aid), ("status", .s status), ("tech_name", .s tech),
   ("notes", .s notes),
   ("site", match site with | some v => .s v | none => .null),
   ("timestamp", .n ts)]

/-- `record_scan`: insert one `scan_history` row into the active store;
in local mode also enqueue the same INSERT for later replay.  A remote
statement failure (`downExec` while connected) is caught, rolled back
and reported as `False` without touching either store. -/
def record_scan (s : EngineState) (aid status tech notes : String)
    (site : Option String) (h : PgHealth) : EngineState × Bool :=
  let s1 := get_connection s h
  if s1.usingLocal then
    let row : ScanRow :=
      { id := s1.localDB.nextScanId, asset_id := aid, status := status,
        timestamp := s1.clock, notes := notes, tech_name := tech, site := site }
    let s2 : EngineState :=
      { s1 with
          localDB := { s1.localDB with
            history := s1.localDB.history ++ [row],
            nextScanId := s1.localDB.nextScanId + 1 },
          clock := s1.clock + 1 }
    (recordOperation s2 "INSERT" "scan_history"
        (scanPayload aid status tech notes site row.timestamp), true)
  else if h == .downExec then
    (s1, false)
  else
    let row : ScanRow :=
      { id := s1.remote.nextScanId, asset_id := aid, status := status,
        timestamp := s1.clock, notes := notes, tech_name := tech, site := site }
    ({ s1 with
        remote := { s1.remote with
          history := s1.remote.history ++ [row],
          nextScanId := s1.remote.nextScanId + 1 },
        clock := s1.clock + 1 }, true)

/-- `asset_data.get('asset_tag', asset_data.get('asset_id'))` followed by
the falsy check. -/
def assetTagOf (data : Row) : Option String :=
  match (match rowLookup data "asset_tag" with
         | some v => some v
         | none => rowLookup data "asset_id") with
  | some (.s t) => if t == "" then none else some t
  | _ => none

/-- `update_asset` on one store's assets table, given whether the row
already exists: UPDATE all fields except `asset_tag`, or INSERT with
`asset_tag` renamed to `asset_id`.  Returns the new table and the
dictionary handed to `_record_operation`. -/
def upsertInto (t : List Row) (tag : String) (data1 : Row) : List Row × String × Row :=
  match assetsFind t tag with
  | some _ =>
      (assetsUpdate t tag (rowDrop data1 "asset_tag"), "UPDATE", data1)
  | none =>
      let dataDb := rowDrop (rowSet data1 "asset_id" (.s tag)) "asset_tag"
      (t ++ [dataDb], "INSERT", dataDb)

/-- `update_asset`: upsert a dynamic field dictionary keyed by
`asset_tag`/`asset_id`, stamping `last_updated = now()`; in local mode
the same mutation is enqueued.  A remote statement failure while
connected rolls back and returns `False`. -/
def update_asset (s : EngineState) (data : Row) (h : PgHealth) : EngineState × Bool :=
  if data.isEmpty then (s, false)
  else
    match assetTagOf data with
    | none => (s, false)
    | some tag =>
      let s1 := get_connection s h
      if s1.usingLocal then
        let data1 := rowSet data "last_updated" (.n s1.clock)
        let res := upsertInto s1.localDB.assets tag data1
        let s2 : EngineState :=
          { s1 with
              localDB := { s1.localDB with assets := res.1 },
              clock := s1.clock + 1 }
        (recordOperation s2 res.2.1 "assets" res.2.2, true)
      else if h == .downExec then
        (s1, false)
      else
        let data1 := rowSet data "last_updated" (.n s1.clock)
        let res := upsertInto s1.remote.assets tag data1
        ({ s1 with
            remote := { s1.remote with assets := res.1 },
            clock := s1.clock + 1 }, true)

/-- The comment rewrite in `delete_asset`'s `CASE WHEN` expression. -/
def deleteComment (old : Option Value) : Value :=
  match old with
  | none => .s "Asset deleted from inventory"
  | some .null => .s "Asset deleted from inventory"
  | some (.s c) =>
      if c == "" then .s "Asset deleted from inventory"
      else .s (c ++ " | Asset deleted from inventory")
  | some v => v

/-- Effect of `delete_asset`'s UPDATE on one matching row: mark the
operational status `DELETED` and append the deletion note to comments. -/
def softDeleteRow (r : Row) : Row :=
  rowSet (rowSet r "operational_status" (.s "DELETED"))
    "comments" (deleteComment (rowLookup r "comments"))

/-- `delete_asset` (soft delete): rewrite the matching row in the active
store; in local mode enqueue the status-only UPDATE dictionary. -/
def delete_asset (s : EngineState) (aid : String) (h : PgHealth) : EngineState × Bool :=
  let s1 := get_connection s h
  if s1.usingLocal then
    let t := s1.localDB.assets.map
      (fun r => if rowLookup r "asset_id" == some (.s aid) then softDeleteRow r else r)
    let s2 := { s1 with localDB := { s1.localDB with assets := t } }
    (recordOperation s2 "UPDATE" "assets"
        [("asset_id", .s aid), ("operational_status", .s "DELETED")], true)
  else if h == .downExec then
    (s1, false)
  else
    let t := s1.remote.assets.map
      (fun r => if rowLookup r "asset_id" == some (.s aid) then softDeleteRow r else r)
    ({ s1 with remote := { s1.remote with assets := t } }, true)

/-- `hard_delete_asset`: remove the asset row; the scan-history rows are
deliberately kept (`# Note: We keep the history records`). -/
def hard_delete_asset (s : EngineState) (aid : String) (h : PgHealth) : EngineState × Bool :=
  let s1 := get_connection s h
  if s1.usingLocal then
    let s2 := { s1 with localDB := { s1.localDB with
      assets := assetsDelete s1.localDB.assets aid } }
    (recordOperation s2 "DELETE" "assets" [("asset_id", .s aid)], true)
  else if h == .downExec then
    (s1, false)
  else
    ({ s1 with remote := { s1.remote with
        assets := assetsDelete s1.remote.assets aid } }, true)

/-- `get_asset_current_status` including its `get_connection` side effect
and its error dictionary when the remote SELECT raises. -/
def get_asset_current_status (s : EngineState) (aid : String) (h : PgHealth) :
    EngineState × StatusInfo :=
  let s1 := get_connection s h
  if !s1.usingLocal && h == .downExec then
    (s1, { status := "unknown", timestamp := none, tech_name := none,
           notes := "Error", site := none })
  else
    let hist := if s1.usingLocal then s1.localDB.history else s1.remote.history
    (s1, currentStatusOf hist aid)

/-- `get_pending_changes_count`: `0` unless local mode with the pending
flag set, else `SELECT COUNT(*) FROM sync_queue`. -/
def get_pending_changes_count (s : EngineState) : Nat :=
  if !s.usingLocal || !s.pendingSync then 0
  else s.localDB.queue.length

/-- Apply a flag-field UPDATE to whichever assets table is active. -/
def updateActiveAssets (s : EngineState) (aid : String) (upd : Row) : EngineState :=
  if s.usingLocal then
    { s with localDB := { s.localDB with
        assets := assetsUpdate s.localDB.assets aid upd } }
  else
    { s with remote := { s.remote with
        assets := assetsUpdate s.remote.assets aid upd } }

/-- `flag_asset`: read the derived status first, set the flag columns,
record a `flagged` scan with site `Out`, and, when the asset was
currently `in`, record an automatic `out` scan as well. -/
def flag_asset (s : EngineState) (aid flagNotes flagTech : String) (h : PgHealth) :
    EngineState × Bool :=
  let s1 := get_connection s h
  let res := get_asset_current_status s1 aid h
  let s2 := res.1
  let currentState := res.2.status
  if !s2.usingLocal && h == .downExec then
    (s2, false)
  else
    let ts := s2.clock
    let upd : Row :=
      [("flag_status", if s2.usingLocal then .n 1 else .b true),
       ("flag_notes", .s flagNotes), ("flag_timestamp", .n ts),
       ("flag_tech", .s flagTech)]
    let s3 := updateActiveAssets { s2 with clock := ts + 1 } aid upd
    let s4 :=
      if s3.usingLocal then
        recordOperation s3 "UPDATE" "assets"
          [("asset_id", .s aid), ("flag_status", .n 1),
           ("flag_notes", .s flagNotes), ("flag_timestamp", .n ts),
           ("flag_tech", .s flagTech)]
      else s3
    let s5 := (record_scan s4 aid "flagged" flagTech flagNotes (some "Out") h).1
    let s6 :=
      if currentState == "in" then
        (record_scan s5 aid "out" flagTech
            ("Automatically checked out due to flagging: " ++ flagNotes)
            (some "Out") h).1
      else s5
    (s6, true)

/-- `unflag_asset`: clear the flag columns and record an `unflagged`
scan preserving the current site. -/
def unflag_asset (s : EngineState) (aid tech notes : String) (h : PgHealth) :
    EngineState × Bool :=
  let s1 := get_connection s h
  let res := get_asset_current_status s1 aid h
  let s2 := res.1
  let currentSite := res.2.site
  if !s2.usingLocal && h == .downExec then
    (s2, false)
  else
    let upd : Row :=
      [("flag_status", if s2.usingLocal then .n 0 else .b false),
       ("flag_notes", .null), ("flag_timestamp", .null), ("flag_tech", .null)]
    let s3 := updateActiveAssets s2 aid upd
    let s4 :=
      if s3.usingLocal then
        recordOperation s3 "UPDATE" "assets"
          [("asset_id", .s aid), ("flag_status", .n 0), ("flag_notes", .null),
           ("flag_timestamp", .null), ("flag_tech", .null)]
      else s3
    ((record_scan s4 aid "unflagged" tech notes currentSite h).1, true)

/-- `check_and_update_expiry_flag`.  The SELECT of the stored maturity
date and the `strptime` format loop are summarized by `parse`: `none`
models a missing row, a NULL date or an unparseable format (every early
`return` path), `some b` the computed `should_flag` value. -/
def check_and_update_expiry_flag (s : EngineState) (aid : String)
    (parse : Option Bool) : EngineState :=
  match parse with
  | none => s
  | some shouldFlag =>
      let upd : Row :=
        [("expiry_flag_status",
            if s.usingLocal then .n (if shouldFlag then 1 else 0)
            else .b shouldFlag),
         ("last_updated", .n s.clock)]
      let s2 := updateActiveAssets { s with clock := s.clock + 1 } aid upd
      if s2.usingLocal then
        recordOperation s2 "UPDATE" "assets"
          [("asset_id", .s aid),
           ("expiry_flag_status", .n (if shouldFlag then 1 else 0)),
           ("last_updated", .n s2.clock)]
      else s2

/-- `update_lease_info`: UPDATE the provided lease columns plus
`last_updated`; enqueue the same dictionary in local mode; when a
maturity date was provided, recompute the expiry flag. -/
def update_lease_info (s : EngineState) (aid : String)
    (startD maturityD : Option String) (parse : Option Bool) (h : PgHealth) :
    EngineState × Bool :=
  let s1 := get_connection s h
  let updBase : Row :=
    (match startD with
     | some v => [("lease_start_date", Value.s v)]
     | none => []) ++
    (match maturityD with
     | some v => [("lease_maturity_date", Value.s v)]
     | none => [])
  if updBase.isEmpty then (s1, true)
  else if !s1.usingLocal && h == .downExec then (s1, false)
  else
    let upd := updBase ++ [("last_updated", Value.n s1.clock)]
    let s2 := updateActiveAssets { s1 with clock := s1.clock + 1 } aid upd
    let s3 :=
      if s2.usingLocal then
        recordOperation s2 "UPDATE" "assets" (upd ++ [("asset_id", .s aid)])
      else s2
    let s4 :=
      if maturityD.isSome then check_and_update_expiry_flag s3 aid parse
      else s3
    (s4, true)

/-! ## Sync Engine -/

/-- Read a string column of a replayed scan payload (a missing column
inserts NULL, read back as the empty string here). -/
def payloadString (data : Row) (k : String) : String :=
  match rowLookup data k with
  | some (.s v) => v
  | _ => ""

/-- Read the numeric timestamp of a replayed scan payload. -/
def payloadNat (data : Row) (k : String) : Nat :=
  match rowLookup data k with
  | some (.n v) => v
  | _ => 0

/-- Read the optional site column of a replayed scan payload. -/
def payloadSite (data : Row) : Option String :=
  match rowLookup data "site" with
  | some (.s v) => some v
  | _ => none

/-- Build the remote `scan_history` row a replayed INSERT creates (the
surrogate id is assigned by the remote sequence). -/
def scanRowOfPayload (i : Nat) (data : Row) : ScanRow :=
  { id := i, asset_id := payloadString data "asset_id",
    status := payloadString data "status",
    timestamp := payloadNat data "timestamp",
    notes := payloadString data "notes",
    tech_name := payloadString data "tech_name",
    site := payloadSite data }

/-- Replay one sync-queue entry against the remote store, the body of
`_sync_to_server`'s per-entry loop.  `none` is the caught-exception path
(`json.JSONDecodeError`, `KeyError`, `ValueError` or a `psycopg2` error
such as a primary-key violation): the transaction is rolled back and the
entry stays queued.  `some r'` is the committed-transaction path.
UPDATE/DELETE statements against tables other than `assets` are modelled
as erroring; the engine only ever enqueues `assets` rows for those
operations (`_record_operation` call sites), so no reachable queue
exercises that branch. -/
def applyEntry (r : RemoteDB) (e : QueueEntry) : Option RemoteDB :=
  match e.data with
  | none => none
  | some data =>
    if e.operation == "INSERT" then
      if e.table_name == "assets" then
        match rowLookup data "asset_id" with
        | some (.s aid) =>
            match assetsFind r.assets aid with
            | some _ => none
            | none => some { r with assets := r.assets ++ [data] }
        | _ => none
      else if e.table_name == "scan_history" then
        some { r with
          history := r.history ++ [scanRowOfPayload r.nextScanId data],
          nextScanId := r.nextScanId + 1 }
      else none
    else if e.operation == "UPDATE" then
      let idField := if e.table_name == "assets" then "asset_id" else "id"
      match rowLookup data idField with
      | none => none
      | some idv =>
          let upd := rowDrop data idField
          if upd.isEmpty then none
          else if e.table_name == "assets" then
            match idv with
            | .s aid => some { r with assets := assetsUpdate r.assets aid upd }
            | _ => some r
          else none
    else if e.operation == "DELETE" then
      let idField := if e.table_name == "assets" then "asset_id" else "id"
      match rowLookup data idField with
      | none => none
      | some idv =>
          if e.table_name == "assets" then
            match idv with
            | .s aid => some { r with assets := assetsDelete r.assets aid }
            | _ => some r
          else none
    else
      some r

/-- The replay loop of `_sync_to_server`: process every entry in order,
commit successes individually, keep failures, never abort the batch.
Returns the remote store, the successfully applied entries in
application order, and the retained entries in their original order. -/
def pushLoop (r : RemoteDB) : List QueueEntry → RemoteDB × List QueueEntry × List QueueEntry
  | [] => (r, [], [])
  | e :: es =>
      match applyEntry r e with
      | some r1 =>
          let res := pushLoop r1 es
          (res.1, e :: res.2.1, res.2.2)
      | none =>
          let res := pushLoop r es
          (res.1, res.2.1, e :: res.2.2)

/-- `ORDER BY timestamp` over the queue read by `_sync_to_server`. -/
def insertByTs (e : QueueEntry) : List QueueEntry → List QueueEntry
  | [] => [e]
  | x :: xs => if e.timestamp ≤ x.timestamp then e :: x :: xs else x :: insertByTs e xs

/-- Sort the queue rows by their enqueue timestamp. -/
def orderByTimestamp (l : List QueueEntry) : List QueueEntry :=
  l.foldr insertByTs []

/-- `_sync_to_server`: no-op without the pending flag; otherwise read
the queue in timestamp order, replay it entry by entry, delete the
processed ids, and recompute `pending_sync` from the remaining count. -/
def syncToServer (s : EngineState) : EngineState :=
  if !s.pendingSync then s
  else
    let q := orderByTimestamp s.localDB.queue
    if q.isEmpty then { s with pendingSync := false }
    else
      let res := pushLoop s.remote q
      { s with
          remote := res.1,
          localDB := { s.localDB with queue := res.2.2 },
          pendingSync := !res.2.2.isEmpty }

/-- The bounded scan-history window pulled by `_sync_central_to_local`
(`WHERE timestamp >= CURRENT_TIMESTAMP - INTERVAL '90 days'`). -/
def daysToSync : Nat := 90

/-- `_sync_central_to_local` (the pull step): inside one local
transaction, clear the local assets table and bulk-insert the remote
assets, then clear the local scan history and bulk-insert the remote
rows of the last `daysToSync` days.  The sync queue is not touched.
On any error the local transaction is rolled back, leaving `l`. -/
def syncCentralToLocal (now : Nat) (remote : RemoteDB) (l : LocalDB) : LocalDB :=
  { l with
      assets := remote.assets,
      history := remote.history.filter (fun rec => now ≤ rec.timestamp + daysToSync) }

/-- Trace events of one connectivity-checker tick, for stating the
ordering claims about the reconnect cycle. -/
inductive SyncEvent where
  | markConnected
  | pull
  | push
deriving DecidableEq, Repr

/-- One tick of the `_start_connectivity_checker` background loop:
a no-op while connected; while degraded, reinitialize the pools and
probe (`probeOk` covers both), and on success flip `using_local` off and
run `_sync_to_server` when changes are pending.  The tick never runs
`_sync_central_to_local`. -/
def checkerTick (s : EngineState) (probeOk : Bool) : EngineState × List SyncEvent :=
  if s.usingLocal then
    if probeOk then
      let s1 := { s with usingLocal := false }
      if s1.pendingSync then
        (syncToServer s1, [.markConnected, .push])
      else
        (s1, [.markConnected])
    else (s, [])
  else (s, [])

/-! ## The operation language (every state-changing entry point) -/

/-- One call into the engine, with the remote health it encounters. -/
inductive Op where
  | opUpdateAsset (data : Row) (h : PgHealth)
  | opRecordScan (aid status tech notes : String) (site : Option String) (h : PgHealth)
  | opDeleteAsset (aid : String) (h : PgHealth)
  | opHardDeleteAsset (aid : String) (h : PgHealth)
  | opFlagAsset (aid flagNotes flagTech : String) (h : PgHealth)
  | opUnflagAsset (aid tech notes : String) (h : PgHealth)
  | opUpdateLease (aid : String) (startD maturityD : Option String)
      (parse : Option Bool) (h : PgHealth)
  | opGetStatus (aid : String) (h : PgHealth)
  | opCheckerTick (probeOk : Bool)

/-- State effect of one engine call. -/
def step (s : EngineState) : Op → EngineState
  | .opUpdateAsset data h => (update_asset s data h).1
  | .opRecordScan aid st tech notes site h => (record_scan s aid st tech notes site h).1
  | .opDeleteAsset aid h => (delete_asset s aid h).1
  | .opHardDeleteAsset aid h => (hard_delete_asset s aid h).1
  | .opFlagAsset aid n t h => (flag_asset s aid n t h).1
  | .opUnflagAsset aid t n h => (unflag_asset s aid t n h).1
  | .opUpdateLease aid sd md p h => (update_lease_info s aid sd md p h).1
  | .opGetStatus aid h => (get_asset_current_status s aid h).1
  | .opCheckerTick p => (checkerTick s p).1

/-- Run a sequence of engine calls. -/
def steps (s : EngineState) (ops : List Op) : EngineState :=
  ops.foldl step s

/-- The asset a queue entry targets, for the FIFO-per-asset claims. -/
def entryAssetId (e : QueueEntry) : Option Value :=
  e.data.bind (fun d => rowLookup d "asset_id")

/-- The scan-history table of whichever store currently serves reads. -/
def activeHistory (s : EngineState) : List ScanRow :=
  if s.usingLocal then s.localDB.history else s.remote.history

/-- The assets table of whichever store currently serves reads. -/
def activeAssets (s : EngineState) : List Row :=
  if s.usingLocal then s.localDB.assets else s.remote.assets

/-! ## Association-list row lemmas -/

theorem rowLookup_nil (k : String) : rowLookup [] k = none := rfl

theorem rowLookup_cons (p : String × Value) (r : Row) (k : String) :
    rowLookup (p :: r) k = if p.1 == k then some p.2 else rowLookup r k := by
  simp only [rowLookup, List.find?_cons]
  split <;> simp_all

theorem rowLookup_append (r1 r2 : Row) (k : String) :
    rowLookup (r1 ++ r2) k =
      (rowLookup r1 k).elim (rowLookup r2 k) (fun v => some v) := by
  induction r1 with
  | nil => simp [rowLookup_nil]
  | cons p tl ih =>
      rw [List.cons_append, rowLookup_cons, rowLookup_cons]
      split <;> simp [ih]

theorem rowLookup_map_set_self (r : Row) (k : String) (v : Value) :
    rowLookup (r.map (fun p => if p.1 == k then (k, v) else p)) k =
      if (r.find? (fun p => p.1 == k)).isSome then some v else none := by
  induction r with
  | nil => simp [rowLookup]
  | cons p tl ih =>
      by_cases hpk : p.1 = k
      · have hb : (p.1 == k) = true := by simp [hpk]
        rw [List.map_cons, if_pos hb, rowLookup_cons]
        simp [List.find?_cons, hb]
      · have hb : (p.1 == k) = false := by simp [hpk]
        have hf : List.find? (fun q => q.1 == k) (p :: tl) =
            List.find? (fun q => q.1 == k) tl := by
          simp [List.find?_cons, hb]
        rw [List.map_cons, if_neg (by simp [hb]), rowLookup_cons, if_neg (by simp [hb]), hf]
        exact ih

theorem rowLookup_map_set_ne (r : Row) (k k' : String) (v : Value)
    (hne : k' ≠ k) :
    rowLookup (r.map (fun p => if p.1 == k then (k, v) else p)) k' =
      rowLookup r k' := by
  induction r with
  | nil => simp
  | cons p tl ih =>
      by_cases hpk : p.1 = k
      · have hb : (p.1 == k) = true := by simp [hpk]
        have hkk : (k == k') = false := by
          simp only [beq_eq_false_iff_ne, ne_eq]
          exact fun h => hne h.symm
        have hpk' : (p.1 == k') = false := by rw [hpk]; exact hkk
        rw [List.map_cons, if_pos hb, rowLookup_cons, rowLookup_cons,
          if_neg (by simp [hkk]), if_neg (by simp [hpk'])]
        exact ih
      · have hb : (p.1 == k) = false := by simp [hpk]
        rw [List.map_cons, if_neg (by simp [hb]), rowLookup_cons, rowLookup_cons, ih]

theorem rowLookup_rowSet_self (r : Row) (k : String) (v : Value) :
    rowLookup (rowSet r k v) k = some v := by
  unfold rowSet
  split
  · rename_i hfind
    rw [rowLookup_map_set_self, if_pos hfind]
  · rename_i hfind
    have hnone : rowLookup r k = none := by
      simp only [rowLookup]
      rw [Option.not_isSome_iff_eq_none.mp hfind]
      rfl
    rw [rowLookup_append, hnone]
    simp [rowLookup_cons]

theorem rowLookup_rowSet_ne (r : Row) (k k' : String) (v : Value)
    (hne : k' ≠ k) : rowLookup (rowSet r k v) k' = rowLookup r k' := by
  unfold rowSet
  split
  · exact rowLookup_map_set_ne r k k' v hne
  · rw [rowLookup_append]
    have hkk : ¬ (k == k') = true := by simpa using fun h => hne h.symm
    have h1 : rowLookup [(k, v)] k' = none := by simp [rowLookup_cons, hkk, rowLookup_nil]
    rw [h1]
    rcases hl : rowLookup r k' with _ | w <;> simp

/-- `softDeleteRow` rewrites only the two columns of the SET clause. -/
theorem softDeleteRow_frame (r : Row) (k : String)
    (h1 : k ≠ "operational_status") (h2 : k ≠ "comments") :
    rowLookup (softDeleteRow r) k = rowLookup r k := by
  unfold softDeleteRow
  rw [rowLookup_rowSet_ne _ _ _ _ h2, rowLookup_rowSet_ne _ _ _ _ h1]

theorem softDeleteRow_status (r : Row) :
    rowLookup (softDeleteRow r) "operational_status" = some (.s "DELETED") := by
  unfold softDeleteRow
  rw [rowLookup_rowSet_ne _ _ _ _ (by decide), rowLookup_rowSet_self]

/-- A healthy remote never triggers the failover branch of
`get_connection`. -/
theorem get_connection_up (s : EngineState) : get_connection s .up = s := by
  unfold get_connection acquireFails
  simp

/-- An asset row with a comment, for exercising the soft delete. -/
def rowC7 : Row := [("asset_id", .s "A"), ("comments", .s "x"), ("hostname", .s "h1")]

/-- A degraded engine state holding just `rowC7`. -/
def sC7 : EngineState :=
  { usingLocal := true, pendingSync := false,
    localDB := { assets := [rowC7], history := [], queue := [], nextScanId := 0, nextQueueId := 1 },
    remote := { assets := [], history := [], nextScanId := 0 },
    clock := 5 }

/-- C7 (counterexample): `delete_asset` does not leave every field other
than the operational status unchanged — on an asset whose comments are
`x`, the soft delete rewrites the comments to
`x | Asset deleted from inventory`, so the claim's frame condition fails
on the `comments` column. -/
theorem soft_delete_counterexample :
    rowLookup rowC7 "comments" = some (.s "x") ∧
    (delete_asset sC7 "A" .up).1.localDB.assets.map (fun r => rowLookup r "comments") =
      [some (.s "x | Asset deleted from inventory")] ∧
    (delete_asset sC7 "A" .up).1.localDB.assets.map (fun r => rowLookup r "comments") ≠
      [rowLookup rowC7 "comments"] := by
  refine ⟨by decide, by decide, by decide⟩

/-- C7 (amended): `delete_asset` keeps the row (never physically removes
it) and rewrites exactly the two columns of its `SET` clause — the
operational status becomes the terminal `DELETED` marker and the
comments gain the deletion note; every other column of the row, every
non-matching row, and the scan history are unchanged. -/
theorem soft_delete_frame (s : EngineState) (aid : String) :
    (delete_asset s aid .up).2 = true ∧
    activeAssets (delete_asset s aid .up).1 = (activeAssets s).map
      (fun r => if rowLookup r "asset_id" == some (.s aid) then softDeleteRow r else r) ∧
    (activeAssets (delete_asset s aid .up).1).length = (activeAssets s).length ∧
    (∀ r ∈ activeAssets s, ¬ rowLookup r "asset_id" = some (.s aid) →
        r ∈ activeAssets (delete_asset s aid .up).1) ∧
    (∀ r : Row, ∀ k : String, k ≠ "operational_status" → k ≠ "comments" →
        rowLookup (softDeleteRow r) k = rowLookup r k) ∧
    (∀ r : Row, rowLookup (softDeleteRow r) "operational_status" = some (.s "DELETED")) ∧
    (delete_asset s aid .up).1.localDB.history = s.localDB.history ∧
    (delete_asset s aid .up).1.remote.history = s.remote.history := by
  have hmem : ∀ t : List Row, ∀ r ∈ t, ¬ rowLookup r "asset_id" = some (.s aid) →
      r ∈ t.map (fun q => if rowLookup q "asset_id" == some (.s aid) then softDeleteRow q else q) := by
    intro t r hr hne
    refine List.mem_map.mpr ⟨r, hr, ?_⟩
    rw [if_neg (by simpa using hne)]
  unfold delete_asset
  rw [get_connection_up]
  by_cases hU : s.usingLocal
  · simp only [hU, if_true, recordOperation, activeAssets]
    refine ⟨by trivial, by trivial, by simp, ?_, ?_, softDeleteRow_status, by trivial, by trivial⟩
    · intro r hr hne; exact hmem _ r hr hne
    · intro r k h1 h2; exact softDeleteRow_frame r k h1 h2
  · simp only [hU, if_false, activeAssets, Bool.false_eq_true]
    simp only [show ((PgHealth.up == PgHealth.downExec) = false) from rfl, Bool.false_eq_true,
      if_false]
    refine ⟨by trivial, by trivial, by simp, ?_, ?_, softDeleteRow_status, by trivial, by trivial⟩
    · intro r hr hne; exact hmem _ r hr hne
    · intro r k h1 h2; exact softDeleteRow_frame r k h1 h2

/-- C7 (witness): the amended frame theorem applied to the concrete
state `sC7`. -/
theorem soft_delete_frame_witness :
    (delete_asset sC7 "A" .up).2 = true ∧
    rowLookup (softDeleteRow rowC7) "hostname" = rowLookup rowC7 "hostname" ∧
    rowLookup (softDeleteRow rowC7) "operational_status" = some (.s "DELETED") := by
  have h := soft_delete_frame sC7 "A"
  exact ⟨h.1, h.2.2.2.2.1 rowC7 "hostname" (by decide) (by decide),
    h.2.2.2.2.2.1 rowC7⟩

/-! ## C3: derived current status -/

/-- Over a strictly time-ordered list the max-timestamp fold keeps the
last element. -/
theorem foldl_maxStep_strict (l : List ScanRow)
    (hp : l.Pairwise (fun a b => a.timestamp < b.timestamp)) (hne : l ≠ []) :
    l.foldl maxStep none = some (l.getLast hne) := by
  induction l with
  | nil => cases hne rfl
  | cons x xs ih =>
      cases xs with
      | nil => rfl
      | cons y tl =>
          have hxy : x.timestamp < y.timestamp :=
            (List.pairwise_cons.mp hp).1 y (List.mem_cons_self y tl)
          have hp2 : (y :: tl).Pairwise (fun a b => a.timestamp < b.timestamp) :=
            (List.pairwise_cons.mp hp).2
          have h1 : (x :: y :: tl).foldl maxStep none = (y :: tl).foldl maxStep none := by
            simp only [List.foldl_cons]
            congr 1
            simp [maxStep, hxy]
          rw [h1, ih hp2 (by simp)]
          congr 1

/-- On a strictly time-ordered history, the latest `in`/`out` row for an
asset is the last matching row of the table. -/
theorem latestInOut_strict (hist : List ScanRow) (aid : String)
    (hp : hist.Pairwise (fun a b => a.timestamp < b.timestamp))
    (hne : hist.filter (isInOutFor aid) ≠ []) :
    latestInOut hist aid = some ((hist.filter (isInOutFor aid)).getLast hne) := by
  rw [latestInOut_eq_foldl]
  exact foldl_maxStep_strict _ (List.Pairwise.sublist (List.filter_sublist hist) hp) hne

/-- C3: for every asset, `get_asset_current_status` returns the most
recent ScanEvent of that asset whose status is `in` or `out` (the last
matching row of a strictly time-ordered history), ignoring events with
any other status; when the asset has no `in`/`out` event at all it
returns the synthetic `out` dictionary with its explanatory note instead
of an error. -/
theorem current_status_derivation (s : EngineState) (aid : String)
    (hp : (activeHistory s).Pairwise (fun a b => a.timestamp < b.timestamp)) :
    (∀ hne : (activeHistory s).filter (isInOutFor aid) ≠ [],
        (get_asset_current_status s aid .up).2 =
          statusOfRow (((activeHistory s).filter (isInOutFor aid)).getLast hne)) ∧
    ((activeHistory s).filter (isInOutFor aid) = [] →
        (get_asset_current_status s aid .up).2 = noHistoryStatus) ∧
    noHistoryStatus.status = "out" ∧
    noHistoryStatus.notes = "No check-in/out history found" := by
  have hcur : (get_asset_current_status s aid .up).2 = currentStatusOf (activeHistory s) aid := by
    unfold get_asset_current_status
    rw [get_connection_up]
    by_cases hU : s.usingLocal <;> simp [hU, activeHistory]
  refine ⟨?_, ?_, rfl, rfl⟩
  · intro hne
    rw [hcur]
    unfold currentStatusOf
    rw [latestInOut_strict (activeHistory s) aid hp hne]
  · intro hnil
    rw [hcur]
    unfold currentStatusOf
    rw [(latestInOut_eq_none_iff _ _).mpr hnil]

/-- The spec's example history: `in@1`. -/
def exIn : ScanRow :=
  { id := 0, asset_id := "A", status := "in", timestamp := 1,
    notes := "", tech_name := "t", site := none }

/-- The spec's example history: `out@2`. -/
def exOut : ScanRow :=
  { id := 1, asset_id := "A", status := "out", timestamp := 2,
    notes := "", tech_name := "t", site := none }

/-- The spec's example history: `note@3`. -/
def exNote : ScanRow :=
  { id := 2, asset_id := "A", status := "note", timestamp := 3,
    notes := "", tech_name := "t", site := none }

/-- A degraded state holding the spec's `[in@t1, out@t2, note@t3]`
example history. -/
def sC3 : EngineState :=
  { usingLocal := true, pendingSync := false,
    localDB := { assets := [], history := [exIn, exOut, exNote], queue := [],
                 nextScanId := 3, nextQueueId := 1 },
    remote := { assets := [], history := [], nextScanId := 0 },
    clock := 10 }

/-- C3 (witness): on `[in@1, out@2, note@3]` the derived status is the
`out@2` event, and an asset with no history gets the synthetic `out`. -/
theorem current_status_derivation_witness :
    (get_asset_current_status sC3 "A" .up).2 = statusOfRow exOut ∧
    (get_asset_current_status sC3 "B" .up).2 = noHistoryStatus := by
  have h1 := (current_status_derivation sC3 "A" (by decide)).1 (by decide)
  have h2 := (current_status_derivation sC3 "B" (by decide)).2.1 (by decide)
  constructor
  · rw [h1]; decide
  · exact h2

/-! ## C9: pull -/

/-- C9: the pull step is idempotent — run twice in a row against the
same remote state it leaves the local store exactly as one run does —
and it wholesale-replaces the local assets table and the bounded recent
scan-history window with the remote contents, leaving the sync queue
untouched. -/
theorem pull_idempotent (now : Nat) (remote : RemoteDB) (l : LocalDB) :
    syncCentralToLocal now remote (syncCentralToLocal now remote l) =
      syncCentralToLocal now remote l ∧
    (syncCentralToLocal now remote l).assets = remote.assets ∧
    (syncCentralToLocal now remote l).history =
      remote.history.filter (fun rec => now ≤ rec.timestamp + daysToSync) ∧
    (syncCentralToLocal now remote l).queue = l.queue := by
  refine ⟨?_, rfl, rfl, rfl⟩
  unfold syncCentralToLocal
  rfl

/-! ## C1: reconnect cycle ordering -/

/-- A pending queued mutation for the reconnect-cycle scenario. -/
def qeC1 : QueueEntry :=
  { id := 1, operation := "UPDATE", table_name := "assets",
    data := some [("asset_id", .s "A"), ("location", .s "L")], timestamp := 3 }

/-- A degraded state with one pending mutation, about to reconnect. -/
def sC1 : EngineState :=
  { usingLocal := true, pendingSync := true,
    localDB := { assets := [], history := [], queue := [qeC1],
                 nextScanId := 0, nextQueueId := 2 },
    remote := { assets := [], history := [], nextScanId := 0 },
    clock := 10 }

/-- C1 (counterexample): on a successful reconnect tick with pending
changes, the connectivity checker runs the push step while no pull step
runs in that cycle at all — refuting the claim that pull executes
earlier in every reconnect cycle in which push executes. -/
theorem reconnect_pull_counterexample :
    SyncEvent.push ∈ (checkerTick sC1 true).2 ∧
    SyncEvent.pull ∉ (checkerTick sC1 true).2 := by
  decide

/-- C1 (amended): a connectivity-checker tick never runs the pull step
(`_sync_central_to_local` is invoked only during startup); on a
successful probe with pending changes the tick marks the mode connected
and then immediately runs push, with no pull in the cycle. -/
theorem reconnect_runs_push_without_pull (s : EngineState) (probeOk : Bool) :
    SyncEvent.pull ∉ (checkerTick s probeOk).2 ∧
    (s.usingLocal = true → probeOk = true → s.pendingSync = true →
      (checkerTick s probeOk).2 = [SyncEvent.markConnected, SyncEvent.push]) := by
  unfold checkerTick
  by_cases hU : s.usingLocal
  · by_cases hP : probeOk
    · by_cases hQ : s.pendingSync
      · simp [hU, hP, hQ]
      · simp [hU, hP, hQ]
    · simp [hU, hP]
  · simp [hU]

/-- C1 (witness): the amended tick behavior on the concrete reconnect
scenario `sC1`. -/
theorem reconnect_runs_push_without_pull_witness :
    SyncEvent.pull ∉ (checkerTick sC1 true).2 ∧
    (checkerTick sC1 true).2 = [SyncEvent.markConnected, SyncEvent.push] :=
  ⟨(reconnect_runs_push_without_pull sC1 true).1,
   (reconnect_runs_push_without_pull sC1 true).2 rfl rfl rfl⟩

/-! ## Push-loop structure lemmas -/

theorem pushLoop_remaining_sublist (q : List QueueEntry) :
    ∀ r : RemoteDB, (pushLoop r q).2.2.Sublist q := by
  induction q with
  | nil => intro r; simp [pushLoop]
  | cons e es ih =>
      intro r
      simp only [pushLoop]
      cases happ : applyEntry r e with
      | some r1 => simpa using List.Sublist.cons e (ih r1)
      | none => simpa using List.Sublist.cons₂ e (ih r)

theorem pushLoop_applied_sublist (q : List QueueEntry) :
    ∀ r : RemoteDB, (pushLoop r q).2.1.Sublist q := by
  induction q with
  | nil => intro r; simp [pushLoop]
  | cons e es ih =>
      intro r
      simp only [pushLoop]
      cases happ : applyEntry r e with
      | some r1 => simpa using List.Sublist.cons₂ e (ih r1)
      | none => simpa using List.Sublist.cons e (ih r)

theorem pushLoop_perm (q : List QueueEntry) :
    ∀ r : RemoteDB, q.Perm ((pushLoop r q).2.1 ++ (pushLoop r q).2.2) := by
  induction q with
  | nil => intro r; simp [pushLoop]
  | cons e es ih =>
      intro r
      simp only [pushLoop]
      cases happ : applyEntry r e with
      | some r1 => simpa using List.Perm.cons e (ih r1)
      | none =>
          simp only []
          exact (List.Perm.cons e (ih r)).trans List.perm_middle.symm

theorem pushLoop_remote (q : List QueueEntry) :
    ∀ r : RemoteDB,
      (pushLoop r q).1 = q.foldl (fun rr e => (applyEntry rr e).getD rr) r := by
  induction q with
  | nil => intro r; simp [pushLoop]
  | cons e es ih =>
      intro r
      simp only [pushLoop, List.foldl_cons]
      cases happ : applyEntry r e with
      | some r1 => simpa [happ] using ih r1
      | none => simpa [happ] using ih r

theorem insertByTs_ne_nil (e : QueueEntry) (l : List QueueEntry) :
    insertByTs e l ≠ [] := by
  cases l with
  | nil => simp [insertByTs]
  | cons x xs => unfold insertByTs; split <;> simp

theorem orderByTimestamp_eq_nil (l : List QueueEntry) :
    orderByTimestamp l = [] ↔ l = [] := by
  cases l with
  | nil => simp [orderByTimestamp]
  | cons x xs =>
      simp only [orderByTimestamp, List.foldr_cons]
      exact ⟨fun h => absurd h (insertByTs_ne_nil x _), fun h => by cases h⟩

/-- Reading the queue `ORDER BY timestamp` returns it unchanged when the
enqueue timestamps were already nondecreasing (the monotone `now()`
clock guarantees this for every queue the engine builds). -/
theorem orderByTimestamp_sorted (l : List QueueEntry)
    (h : l.Pairwise (fun a b => a.timestamp ≤ b.timestamp)) :
    orderByTimestamp l = l := by
  induction l with
  | nil => rfl
  | cons x xs ih =>
      have hx := (List.pairwise_cons.mp h).1
      have h2 := (List.pairwise_cons.mp h).2
      unfold orderByTimestamp at *
      simp only [List.foldr_cons]
      rw [ih h2]
      cases xs with
      | nil => rfl
      | cons y tl =>
          unfold insertByTs
          rw [if_pos (hx y (List.mem_cons_self y tl))]

/-! ## C5: per-entry push with partial-failure tolerance -/

/-- C5: during push every queue entry is replayed as its own individual
transaction (the remote store is the left fold of per-entry commits,
failed entries leaving it untouched); an entry is removed from the queue
exactly when its replay succeeded, the failed entries stay in their
original relative positions (the remaining queue is a sublist of the
original), processing continues past failures (every entry is either
applied or retained), and afterwards `pending_sync` is recomputed from
the number of entries remaining. -/
theorem push_per_entry (s : EngineState) (hpend : s.pendingSync = true)
    (hsorted : s.localDB.queue.Pairwise (fun a b => a.timestamp ≤ b.timestamp)) :
    (syncToServer s).localDB.queue = (pushLoop s.remote s.localDB.queue).2.2 ∧
    (pushLoop s.remote s.localDB.queue).2.2.Sublist s.localDB.queue ∧
    s.localDB.queue.Perm
      ((pushLoop s.remote s.localDB.queue).2.1 ++
        (pushLoop s.remote s.localDB.queue).2.2) ∧
    (syncToServer s).remote =
      s.localDB.queue.foldl (fun rr e => (applyEntry rr e).getD rr) s.remote ∧
    (syncToServer s).pendingSync =
      !(pushLoop s.remote s.localDB.queue).2.2.isEmpty := by
  have hsync : syncToServer s =
      (if (s.localDB.queue).isEmpty then { s with pendingSync := false }
       else
        { s with
            remote := (pushLoop s.remote s.localDB.queue).1,
            localDB := { s.localDB with queue := (pushLoop s.remote s.localDB.queue).2.2 },
            pendingSync := !(pushLoop s.remote s.localDB.queue).2.2.isEmpty }) := by
    unfold syncToServer
    rw [hpend, orderByTimestamp_sorted _ hsorted]
    rfl
  by_cases hq : s.localDB.queue.isEmpty
  · have hq' : s.localDB.queue = [] := by simpa using hq
    rw [hsync, if_pos hq]
    refine ⟨by simp [hq', pushLoop], by simp [hq', pushLoop], by simp [hq', pushLoop],
      by simp [hq', pushLoop], by simp [hq', pushLoop]⟩
  · rw [hsync, if_neg hq]
    exact ⟨rfl, pushLoop_remaining_sublist _ _, pushLoop_perm _ _,
      pushLoop_remote _ _, rfl⟩

/-- The remote row the push scenarios replay against. -/
def rowRemoteA : Row := [("asset_id", .s "A"), ("location", .s "X")]

/-- A malformed queue entry: an UPDATE whose payload carries only the
primary key, so replay raises `ValueError` (no fields to update). -/
def qBad : QueueEntry :=
  { id := 1, operation := "UPDATE", table_name := "assets",
    data := some [("asset_id", .s "A")], timestamp := 3 }

/-- A well-formed queued UPDATE for the same asset, enqueued later. -/
def qGood : QueueEntry :=
  { id := 2, operation := "UPDATE", table_name := "assets",
    data := some [("asset_id", .s "A"), ("location", .s "L")], timestamp := 4 }

/-- A degraded pending state whose queue holds `qBad` then `qGood`. -/
def sC5 : EngineState :=
  { usingLocal := true, pendingSync := true,
    localDB := { assets := [], history := [], queue := [qBad, qGood],
                 nextScanId := 0, nextQueueId := 3 },
    remote := { assets := [rowRemoteA], history := [], nextScanId := 0 },
    clock := 20 }

/-- C5 (witness): the per-entry push theorem on the concrete mixed
success/failure queue of `sC5`. -/
theorem push_per_entry_witness :
    (syncToServer sC5).localDB.queue = [qBad] ∧
    (syncToServer sC5).pendingSync = true := by
  have h := push_per_entry sC5 rfl (by decide)
  refine ⟨?_, ?_⟩
  · rw [h.1]; decide
  · rw [h.2.2.2.2]; decide

/-! ## C4: per-asset FIFO through replay -/

/-- The same malformed-then-well-formed pair for the FIFO scenario. -/
def qeBadC4 : QueueEntry :=
  { id := 1, operation := "UPDATE", table_name := "assets",
    data := some [("asset_id", .s "A")], timestamp := 3 }

/-- The later well-formed entry of the FIFO scenario. -/
def qeGoodC4 : QueueEntry :=
  { id := 2, operation := "UPDATE", table_name := "assets",
    data := some [("asset_id", .s "A"), ("location", .s "L")], timestamp := 4 }

/-- The FIFO scenario's engine state. -/
def sC4 : EngineState :=
  { usingLocal := true, pendingSync := true,
    localDB := { assets := [], history := [], queue := [qeBadC4, qeGoodC4],
                 nextScanId := 0, nextQueueId := 3 },
    remote := { assets := [rowRemoteA], history := [], nextScanId := 0 },
    clock := 20 }

/-- C4 (counterexample): with two queued entries for asset `A`, the
earlier one failing replay (`ValueError` on its payload), push still
applies the later entry's write to Remote (the remote row now shows its
location) while the earlier one was never applied and remains queued —
so a later entry for an asset is applied before the earlier one has been
successfully applied, refuting strict per-asset order under failures. -/
theorem fifo_per_asset_counterexample :
    entryAssetId qeBadC4 = some (.s "A") ∧
    entryAssetId qeGoodC4 = some (.s "A") ∧
    qeBadC4.timestamp < qeGoodC4.timestamp ∧
    qeGoodC4 ∈ (pushLoop sC4.remote (orderByTimestamp sC4.localDB.queue)).2.1 ∧
    qeBadC4 ∉ (pushLoop sC4.remote (orderByTimestamp sC4.localDB.queue)).2.1 ∧
    qeBadC4 ∈ (syncToServer sC4).localDB.queue ∧
    ((syncToServer sC4).remote.assets.headD []).count ("location", Value.s "L") = 1 := by
  decide

/-- C4 (amended): in a push pass in which no entry fails, the entries
are applied to Remote exactly in queue order — in particular, for every
asset, the applied entries targeting it appear in their enqueue order.
When an earlier entry for an asset fails, it is retained for retry but
later entries for the same asset are still applied in that pass. -/
theorem fifo_no_failure (r : RemoteDB) (q : List QueueEntry)
    (hok : (pushLoop r q).2.2 = []) :
    (pushLoop r q).2.1 = q ∧
    ∀ aid : String,
      (pushLoop r q).2.1.filter (fun e => entryAssetId e == some (.s aid)) =
        q.filter (fun e => entryAssetId e == some (.s aid)) := by
  have hperm := pushLoop_perm q r
  rw [hok, List.append_nil] at hperm
  have hsub := pushLoop_applied_sublist q r
  have heq : (pushLoop r q).2.1 = q :=
    hsub.eq_of_length hperm.length_eq.symm
  exact ⟨heq, fun aid => by rw [heq]⟩

/-- C4 (witness): the no-failure FIFO theorem on a concrete
all-successful queue. -/
theorem fifo_no_failure_witness :
    (pushLoop { assets := [rowRemoteA], history := [], nextScanId := 0 }
        [qeGoodC4]).2.1 = [qeGoodC4] :=
  (fifo_no_failure { assets := [rowRemoteA], history := [], nextScanId := 0 }
    [qeGoodC4] (by decide)).1

/-! ## C2: degrade and re-dispatch on Remote failure -/

/-- The one-sided invariant that does hold: a non-empty sync queue
implies the pending flag is set. -/
def PendingInv (s : EngineState) : Prop :=
  s.localDB.queue ≠ [] → s.pendingSync = true

theorem pendingInv_transport {s s' : EngineState}
    (hq : s'.localDB.queue = s.localDB.queue)
    (hp : s'.pendingSync = s.pendingSync) :
    PendingInv s → PendingInv s' := by
  intro hI hne
  rw [hp]
  exact hI (by rw [← hq]; exact hne)

theorem pendingInv_get_connection (s : EngineState) (h : PgHealth) :
    PendingInv s → PendingInv (get_connection s h) := by
  unfold get_connection
  split
  · intro _ _; rfl
  · exact id

theorem pendingInv_recordOperation (s : EngineState) (op tbl : String) (data : Row) :
    PendingInv s → PendingInv (recordOperation s op tbl data) := by
  unfold recordOperation
  dsimp only
  split
  · exact id
  · intro _ _; rfl

theorem pendingInv_updateActiveAssets (s : EngineState) (aid : String) (upd : Row) :
    PendingInv s → PendingInv (updateActiveAssets s aid upd) := by
  unfold updateActiveAssets
  split
  · exact pendingInv_transport rfl rfl
  · exact pendingInv_transport rfl rfl

theorem pendingInv_maybe_record (s' : EngineState) (op tbl : String) (d : Row) :
    PendingInv s' → PendingInv (if s'.usingLocal then recordOperation s' op tbl d else s') := by
  intro hs'
  split
  · exact pendingInv_recordOperation _ _ _ _ hs'
  · exact hs'

theorem get_asset_current_status_state (s : EngineState) (aid : String) (h : PgHealth) :
    (get_asset_current_status s aid h).1 = get_connection s h := by
  unfold get_asset_current_status
  dsimp only
  split <;> rfl

theorem pendingInv_record_scan (s : EngineState) (aid status tech notes : String)
    (site : Option String) (h : PgHealth) :
    PendingInv s → PendingInv (record_scan s aid status tech notes site h).1 := by
  intro hI
  have h1 := pendingInv_get_connection s h hI
  unfold record_scan
  dsimp only
  split
  · exact pendingInv_recordOperation _ _ _ _ (pendingInv_transport rfl rfl h1)
  · split
    · exact h1
    · exact pendingInv_transport rfl rfl h1

theorem pendingInv_syncToServer (s : EngineState) :
    PendingInv s → PendingInv (syncToServer s) := by
  intro hI
  unfold syncToServer
  dsimp only
  split
  · exact hI
  · split
    · rename_i hq
      intro hne
      exfalso
      have h0 : s.localDB.queue = [] := by
        rw [← orderByTimestamp_eq_nil]
        simpa using hq
      exact hne (by simpa using h0)
    · rename_i hq
      intro hne
      have : (pushLoop s.remote (orderByTimestamp s.localDB.queue)).2.2 ≠ [] := by
        simpa using hne
      simp only []
      cases hrem : (pushLoop s.remote (orderByTimestamp s.localDB.queue)).2.2 with
      | nil => exact absurd hrem this
      | cons a tl => simp [hrem]

theorem pendingInv_checkerTick (s : EngineState) (probeOk : Bool) :
    PendingInv s → PendingInv (checkerTick s probeOk).1 := by
  intro hI
  unfold checkerTick
  dsimp only
  split
  · split
    · split
      · exact pendingInv_syncToServer _ (pendingInv_transport rfl rfl hI)
      · exact pendingInv_transport rfl rfl hI
    · exact hI
  · exact hI

theorem pendingInv_update_asset (s : EngineState) (data : Row) (h : PgHealth) :
    PendingInv s → PendingInv (update_asset s data h).1 := by
  intro hI
  have h1 := pendingInv_get_connection s h hI
  unfold update_asset
  dsimp only
  split
  · exact hI
  · split
    · exact hI
    · split
      · exact pendingInv_recordOperation _ _ _ _ (pendingInv_transport rfl rfl h1)
      · split
        · exact h1
        · exact pendingInv_transport rfl rfl h1

theorem pendingInv_delete_asset (s : EngineState) (aid : String) (h : PgHealth) :
    PendingInv s → PendingInv (delete_asset s aid h).1 := by
  intro hI
  have h1 := pendingInv_get_connection s h hI
  unfold delete_asset
  dsimp only
  split
  · exact pendingInv_recordOperation _ _ _ _ (pendingInv_transport rfl rfl h1)
  · split
    · exact h1
    · exact pendingInv_transport rfl rfl h1

theorem pendingInv_hard_delete_asset (s : EngineState) (aid : String) (h : PgHealth) :
    PendingInv s → PendingInv (hard_delete_asset s aid h).1 := by
  intro hI
  have h1 := pendingInv_get_connection s h hI
  unfold hard_delete_asset
  dsimp only
  split
  · exact pendingInv_recordOperation _ _ _ _ (pendingInv_transport rfl rfl h1)
  · split
    · exact h1
    · exact pendingInv_transport rfl rfl h1

theorem pendingInv_flag_asset (s : EngineState) (aid notes tech : String) (h : PgHealth) :
    PendingInv s → PendingInv (flag_asset s aid notes tech h).1 := by
  intro hI
  have h1 := pendingInv_get_connection s h hI
  have h2 : PendingInv (get_asset_current_status (get_connection s h) aid h).1 := by
    rw [get_asset_current_status_state]
    exact pendingInv_get_connection _ _ h1
  unfold flag_asset
  dsimp only
  split
  · exact h2
  · split
    · apply pendingInv_record_scan
      apply pendingInv_record_scan
      exact pendingInv_maybe_record _ _ _ _
        (pendingInv_updateActiveAssets _ _ _ (pendingInv_transport rfl rfl h2))
    · apply pendingInv_record_scan
      exact pendingInv_maybe_record _ _ _ _
        (pendingInv_updateActiveAssets _ _ _ (pendingInv_transport rfl rfl h2))

theorem pendingInv_unflag_asset (s : EngineState) (aid tech notes : String) (h : PgHealth) :
    PendingInv s → PendingInv (unflag_asset s aid tech notes h).1 := by
  intro hI
  have h1 := pendingInv_get_connection s h hI
  have h2 : PendingInv (get_asset_current_status (get_connection s h) aid h).1 := by
    rw [get_asset_current_status_state]
    exact pendingInv_get_connection _ _ h1
  unfold unflag_asset
  dsimp only
  split
  · exact h2
  · apply pendingInv_record_scan
    exact pendingInv_maybe_record _ _ _ _
      (pendingInv_updateActiveAssets _ _ _ h2)

theorem pendingInv_check_expiry (s : EngineState) (aid : String) (parse : Option Bool) :
    PendingInv s → PendingInv (check_and_update_expiry_flag s aid parse) := by
  intro hI
  unfold check_and_update_expiry_flag
  dsimp only
  split
  · exact hI
  · exact pendingInv_maybe_record _ _ _ _
      (pendingInv_updateActiveAssets _ _ _ (pendingInv_transport rfl rfl hI))

theorem pendingInv_update_lease_info (s : EngineState) (aid : String)
    (startD maturityD : Option String) (parse : Option Bool) (h : PgHealth) :
    PendingInv s → PendingInv (update_lease_info s aid startD maturityD parse h).1 := by
  intro hI
  have h1 := pendingInv_get_connection s h hI
  unfold update_lease_info
  dsimp only
  split
  · exact h1
  · split
    · exact h1
    · split
      · apply pendingInv_check_expiry
        exact pendingInv_maybe_record _ _ _ _
          (pendingInv_updateActiveAssets _ _ _ (pendingInv_transport rfl rfl h1))
      · exact pendingInv_maybe_record _ _ _ _
          (pendingInv_updateActiveAssets _ _ _ (pendingInv_transport rfl rfl h1))

theorem pendingInv_step (s : EngineState) (op : Op) :
    PendingInv s → PendingInv (step s op) := by
  cases op with
  | opUpdateAsset data h => exact pendingInv_update_asset s data h
  | opRecordScan aid st tech notes site h => exact pendingInv_record_scan s aid st tech notes site h
  | opDeleteAsset aid h => exact pendingInv_delete_asset s aid h
  | opHardDeleteAsset aid h => exact pendingInv_hard_delete_asset s aid h
  | opFlagAsset aid n t h => exact pendingInv_flag_asset s aid n t h
  | opUnflagAsset aid t n h => exact pendingInv_unflag_asset s aid t n h
  | opUpdateLease aid sd md p h => exact pendingInv_update_lease_info s aid sd md p h
  | opGetStatus aid h =>
      intro hI
      simp only [step]
      rw [get_asset_current_status_state]
      exact pendingInv_get_connection s h hI
  | opCheckerTick p => exact pendingInv_checkerTick s p

/-- The fresh connected state: empty queue, pending flag clear. -/
def sC6 : EngineState :=
  { usingLocal := false, pendingSync := false,
    localDB := { assets := [], history := [], queue := [],
                 nextScanId := 0, nextQueueId := 1 },
    remote := { assets := [], history := [], nextScanId := 0 },
    clock := 0 }

/-- A degraded state with the pending flag set and one queued entry. -/
def sC6deg : EngineState :=
  { usingLocal := true, pendingSync := true,
    localDB := { assets := [], history := [],
                 queue := [{ id := 1, operation := "UPDATE", table_name := "assets",
                             data := some [("asset_id", .s "A")], timestamp := 2 }],
                 nextScanId := 0, nextQueueId := 2 },
    remote := { assets := [], history := [], nextScanId := 0 },
    clock := 3 }

/-- C6 (counterexample): from the fresh connected state, one read whose
connection acquisition fails leaves `pending_sync = True` with an empty
sync queue — `pending_sync` is not equivalent to queue non-emptiness, so
the claimed iff fails in the only-if direction. -/
theorem pending_sync_counterexample :
    (steps sC6 [Op.opGetStatus "A" .downAcquire]).pendingSync = true ∧
    (steps sC6 [Op.opGetStatus "A" .downAcquire]).localDB.queue = [] := by
  decide

/-- C6 (amended): in every state reachable by engine operations from a
state satisfying it, a non-empty sync queue implies `pending_sync` is
set (entries are only enqueued with the flag raised, and push recomputes
the flag from the remaining count); `pendingSyncCount` reports the exact
queue length whenever the engine is degraded with the flag set — but
`pending_sync = True` does not imply the queue is non-empty (connection
failover raises the flag unconditionally), and while connected the count
reports `0` regardless of queue contents. -/
theorem pending_sync_invariant :
    (∀ (s0 : EngineState) (ops : List Op),
        PendingInv s0 → PendingInv (steps s0 ops)) ∧
    (∀ s : EngineState, s.usingLocal = true → s.pendingSync = true →
        get_pending_changes_count s = s.localDB.queue.length) ∧
    (∀ s : EngineState, s.usingLocal = false →
        get_pending_changes_count s = 0) := by
  refine ⟨?_, ?_, ?_⟩
  · intro s0 ops
    induction ops generalizing s0 with
    | nil => exact id
    | cons op rest ih => exact fun hI => ih _ (pendingInv_step s0 op hI)
  · intro s h1 h2
    unfold get_pending_changes_count
    rw [h1, h2]
    rfl
  · intro s h1
    unfold get_pending_changes_count
    rw [h1]
    rfl

/-- C6 (witness): the invariant theorem applied to the fresh state and a
concrete degraded write, and the count readings on concrete states. -/
theorem pending_sync_invariant_witness :
    PendingInv (steps sC6 [Op.opRecordScan "A" "in" "t" "" none .downAcquire]) ∧
    get_pending_changes_count sC6deg = sC6deg.localDB.queue.length ∧
    get_pending_changes_count sC6 = 0 := by
  refine ⟨pending_sync_invariant.1 sC6 [Op.opRecordScan "A" "in" "t" "" none .downAcquire]
      ?_, pending_sync_invariant.2.1 sC6deg rfl rfl, pending_sync_invariant.2.2 sC6 rfl⟩
  intro h
  exact absurd rfl h

/-! ## C8: scan history is append-only -/

/-- Histories never shrink from one engine state to a later one. -/
def HistMono (s s' : EngineState) : Prop :=
  s.localDB.history <+: s'.localDB.history ∧ s.remote.history <+: s'.remote.history

theorem histMono_refl (s : EngineState) : HistMono s s :=
  ⟨List.prefix_rfl, List.prefix_rfl⟩

theorem histMono_trans {a b c : EngineState} :
    HistMono a b → HistMono b c → HistMono a c :=
  fun h1 h2 => ⟨h1.1.trans h2.1, h1.2.trans h2.2⟩

theorem histMono_get_connection (s : EngineState) (h : PgHealth) :
    HistMono s (get_connection s h) := by
  unfold get_connection
  split
  · exact ⟨List.prefix_rfl, List.prefix_rfl⟩
  · exact histMono_refl s

theorem histMono_recordOperation (s : EngineState) (op tbl : String) (d : Row) :
    HistMono s (recordOperation s op tbl d) := by
  unfold recordOperation
  split
  · exact histMono_refl s
  · exact ⟨List.prefix_rfl, List.prefix_rfl⟩

theorem histMono_updateActiveAssets (s : EngineState) (aid : String) (upd : Row) :
    HistMono s (updateActiveAssets s aid upd) := by
  unfold updateActiveAssets
  split
  · exact ⟨List.prefix_rfl, List.prefix_rfl⟩
  · exact ⟨List.prefix_rfl, List.prefix_rfl⟩

theorem histMono_maybe_record (s' : EngineState) (op tbl : String) (d : Row) :
    HistMono s' (if s'.usingLocal then recordOperation s' op tbl d else s') := by
  split
  · exact histMono_recordOperation _ _ _ _
  · exact histMono_refl s'

theorem histMono_record_scan (s : EngineState) (aid status tech notes : String)
    (site : Option String) (h : PgHealth) :
    HistMono s (record_scan s aid status tech notes site h).1 := by
  unfold record_scan
  dsimp only
  split
  · refine histMono_trans ?_ (histMono_recordOperation _ _ _ _)
    exact histMono_trans (histMono_get_connection s h)
      ⟨List.prefix_append _ _, List.prefix_rfl⟩
  · split
    · exact histMono_get_connection s h
    · exact histMono_trans (histMono_get_connection s h)
        ⟨List.prefix_rfl, List.prefix_append _ _⟩

theorem applyEntry_history (r : RemoteDB) (e : QueueEntry) (r' : RemoteDB)
    (h : applyEntry r e = some r') : r.history <+: r'.history := by
  unfold applyEntry at h
  dsimp only at h
  repeat' (first | split at h | dsimp only at h)
  all_goals cases h
  all_goals first
    | exact List.prefix_rfl
    | exact List.prefix_append _ _

theorem pushLoop_history (q : List QueueEntry) :
    ∀ r : RemoteDB, r.history <+: (pushLoop r q).1.history := by
  induction q with
  | nil => intro r; exact List.prefix_rfl
  | cons e es ih =>
      intro r
      simp only [pushLoop]
      cases happ : applyEntry r e with
      | some r1 =>
          exact (applyEntry_history r e r1 happ).trans (by simpa using ih r1)
      | none => simpa using ih r

theorem histMono_syncToServer (s : EngineState) : HistMono s (syncToServer s) := by
  unfold syncToServer
  split
  · exact histMono_refl s
  · dsimp only
    split
    · exact ⟨List.prefix_rfl, List.prefix_rfl⟩
    · exact ⟨List.prefix_rfl, pushLoop_history _ _⟩

theorem histMono_checkerTick (s : EngineState) (probeOk : Bool) :
    HistMono s (checkerTick s probeOk).1 := by
  unfold checkerTick
  split
  · split
    · dsimp only
      split
      · refine histMono_trans ?_ (histMono_syncToServer _)
        exact ⟨List.prefix_rfl, List.prefix_rfl⟩
      · exact ⟨List.prefix_rfl, List.prefix_rfl⟩
    · exact histMono_refl s
  · exact histMono_refl s

theorem histMono_update_asset (s : EngineState) (data : Row) (h : PgHealth) :
    HistMono s (update_asset s data h).1 := by
  unfold update_asset
  dsimp only
  split
  · exact histMono_refl s
  · split
    · exact histMono_refl s
    · split
      · refine histMono_trans ?_ (histMono_recordOperation _ _ _ _)
        exact histMono_trans (histMono_get_connection s h)
          ⟨List.prefix_rfl, List.prefix_rfl⟩
      · split
        · exact histMono_get_connection s h
        · exact histMono_trans (histMono_get_connection s h)
            ⟨List.prefix_rfl, List.prefix_rfl⟩

theorem histMono_delete_asset (s : EngineState) (aid : String) (h : PgHealth) :
    HistMono s (delete_asset s aid h).1 := by
  unfold delete_asset
  dsimp only
  split
  · refine histMono_trans ?_ (histMono_recordOperation _ _ _ _)
    exact histMono_trans (histMono_get_connection s h)
      ⟨List.prefix_rfl, List.prefix_rfl⟩
  · split
    · exact histMono_get_connection s h
    · exact histMono_trans (histMono_get_connection s h)
        ⟨List.prefix_rfl, List.prefix_rfl⟩

theorem histMono_hard_delete_asset (s : EngineState) (aid : String) (h : PgHealth) :
    HistMono s (hard_delete_asset s aid h).1 := by
  unfold hard_delete_asset
  dsimp only
  split
  · refine histMono_trans ?_ (histMono_recordOperation _ _ _ _)
    exact histMono_trans (histMono_get_connection s h)
      ⟨List.prefix_rfl, List.prefix_rfl⟩
  · split
    · exact histMono_get_connection s h
    · exact histMono_trans (histMono_get_connection s h)
        ⟨List.prefix_rfl, List.prefix_rfl⟩

theorem histMono_gcs (s : EngineState) (aid : String) (h : PgHealth) :
    HistMono s (get_asset_current_status s aid h).1 := by
  rw [get_asset_current_status_state]
  exact histMono_get_connection s h

theorem histMono_flag_asset (s : EngineState) (aid notes tech : String) (h : PgHealth) :
    HistMono s (flag_asset s aid notes tech h).1 := by
  have h2 : HistMono s (get_asset_current_status (get_connection s h) aid h).1 :=
    histMono_trans (histMono_get_connection s h) (histMono_gcs _ _ _)
  unfold flag_asset
  dsimp only
  split
  · exact h2
  · split
    · refine histMono_trans ?_ (histMono_record_scan _ _ _ _ _ _ _)
      refine histMono_trans ?_ (histMono_record_scan _ _ _ _ _ _ _)
      refine histMono_trans ?_ (histMono_maybe_record _ _ _ _)
      refine histMono_trans ?_ (histMono_updateActiveAssets _ _ _)
      exact histMono_trans h2 ⟨List.prefix_rfl, List.prefix_rfl⟩
    · refine histMono_trans ?_ (histMono_record_scan _ _ _ _ _ _ _)
      refine histMono_trans ?_ (histMono_maybe_record _ _ _ _)
      refine histMono_trans ?_ (histMono_updateActiveAssets _ _ _)
      exact histMono_trans h2 ⟨List.prefix_rfl, List.prefix_rfl⟩

theorem histMono_unflag_asset (s : EngineState) (aid tech notes : String) (h : PgHealth) :
    HistMono s (unflag_asset s aid tech notes h).1 := by
  have h2 : HistMono s (get_asset_current_status (get_connection s h) aid h).1 :=
    histMono_trans (histMono_get_connection s h) (histMono_gcs _ _ _)
  unfold unflag_asset
  dsimp only
  split
  · exact h2
  · refine histMono_trans ?_ (histMono_record_scan _ _ _ _ _ _ _)
    refine histMono_trans ?_ (histMono_maybe_record _ _ _ _)
    refine histMono_trans ?_ (histMono_updateActiveAssets _ _ _)
    exact h2

theorem histMono_check_expiry (s : EngineState) (aid : String) (parse : Option Bool) :
    HistMono s (check_and_update_expiry_flag s aid parse) := by
  unfold check_and_update_expiry_flag
  dsimp only
  split
  · exact histMono_refl s
  · refine histMono_trans ?_ (histMono_maybe_record _ _ _ _)
    refine histMono_trans ?_ (histMono_updateActiveAssets _ _ _)
    exact ⟨List.prefix_rfl, List.prefix_rfl⟩

theorem histMono_update_lease_info (s : EngineState) (aid : String)
    (startD maturityD : Option String) (parse : Option Bool) (h : PgHealth) :
    HistMono s (update_lease_info s aid startD maturityD parse h).1 := by
  unfold update_lease_info
  dsimp only
  split
  · exact histMono_get_connection s h
  · split
    · exact histMono_get_connection s h
    · have hbase : HistMono s (get_connection s h) := histMono_get_connection s h
      split
      · refine histMono_trans ?_ (histMono_check_expiry _ _ _)
        refine histMono_trans ?_ (histMono_maybe_record _ _ _ _)
        refine histMono_trans ?_ (histMono_updateActiveAssets _ _ _)
        exact histMono_trans hbase ⟨List.prefix_rfl, List.prefix_rfl⟩
      · refine histMono_trans ?_ (histMono_maybe_record _ _ _ _)
        refine histMono_trans ?_ (histMono_updateActiveAssets _ _ _)
        exact histMono_trans hbase ⟨List.prefix_rfl, List.prefix_rfl⟩

theorem histMono_step (s : EngineState) (op : Op) : HistMono s (step s op) := by
  cases op with
  | opUpdateAsset data h => exact histMono_update_asset s data h
  | opRecordScan aid st tech notes site h => exact histMono_record_scan s aid st tech notes site h
  | opDeleteAsset aid h => exact histMono_delete_asset s aid h
  | opHardDeleteAsset aid h => exact histMono_hard_delete_asset s aid h
  | opFlagAsset aid n t h => exact histMono_flag_asset s aid n t h
  | opUnflagAsset aid t n h => exact histMono_unflag_asset s aid t n h
  | opUpdateLease aid sd md p h => exact histMono_update_lease_info s aid sd md p h
  | opGetStatus aid h => exact histMono_gcs s aid h
  | opCheckerTick p => exact histMono_checkerTick s p

theorem get_connection_history (s : EngineState) (h : PgHealth) :
    (get_connection s h).localDB.history = s.localDB.history ∧
    (get_connection s h).remote.history = s.remote.history := by
  unfold get_connection
  split
  · exact ⟨rfl, rfl⟩
  · exact ⟨rfl, rfl⟩

theorem recordOperation_history (s : EngineState) (op tbl : String) (d : Row) :
    (recordOperation s op tbl d).localDB.history = s.localDB.history ∧
    (recordOperation s op tbl d).remote.history = s.remote.history := by
  unfold recordOperation
  split
  · exact ⟨rfl, rfl⟩
  · exact ⟨rfl, rfl⟩

/-- A local scan-history row predating the pull window. -/
def oldScan : ScanRow :=
  { id := 1, asset_id := "A", status := "in", timestamp := 0,
    notes := "", tech_name := "t", site := none }

/-- A local store whose history holds only `oldScan`. -/
def locC8 : LocalDB :=
  { assets := [], history := [oldScan], queue := [], nextScanId := 2, nextQueueId := 1 }

/-- A remote store with no history at all. -/
def remC8 : RemoteDB := { assets := [], history := [], nextScanId := 0 }

/-- C8 (counterexample): the pull refresh does not leave the locally
visible ScanEvent rows intact — it clears the local `scan_history` table
and re-inserts only the remote recent window, so a local row absent from
that window (here, the only local row, against an empty remote) is gone
after the pull. -/
theorem history_pull_counterexample :
    oldScan ∈ locC8.history ∧
    oldScan ∉ (syncCentralToLocal 200 remC8 locC8).history := by
  decide

/-! ## C10: flagging and automatic check-out -/

/-- Appending a row that is not an `in`/`out` row of the asset leaves
its latest `in`/`out` row unchanged. -/
theorem latestInOut_append_skip (hist : List ScanRow) (aid : String) (e : ScanRow)
    (h : isInOutFor aid e = false) :
    latestInOut (hist ++ [e]) aid = latestInOut hist aid := by
  unfold latestInOut
  rw [List.filter_append]
  have hfe : List.filter (isInOutFor aid) [e] = [] := by
    simp [List.filter_cons, h]
  rw [hfe, List.append_nil]

/-- Appending an `in`/`out` row of the asset that is newer than every
matching row makes it the latest. -/
theorem latestInOut_append_big (hist : List ScanRow) (aid : String) (e : ScanRow)
    (hm : isInOutFor aid e = true)
    (hbig : ∀ x ∈ hist, isInOutFor aid x = true → x.timestamp < e.timestamp) :
    latestInOut (hist ++ [e]) aid = some e := by
  rw [latestInOut_eq_foldl, List.filter_append]
  have hfe : List.filter (isInOutFor aid) [e] = [e] := by
    simp [List.filter_cons, hm]
  rw [hfe, List.foldl_append]
  cases hfold : (hist.filter (isInOutFor aid)).foldl maxStep none with
  | none => rfl
  | some b =>
      have hspec := latestInOut_spec hist aid b (by rw [latestInOut_eq_foldl]; exact hfold)
      have hlt : b.timestamp < e.timestamp := hbig b hspec.1 hspec.2.1
      simp [maxStep, hlt]

/-- The derived status is always `in` or `out`; in particular when it is
not `in` it is `out`. -/
theorem currentStatusOf_status_out (hist : List ScanRow) (aid : String)
    (h : ¬ (currentStatusOf hist aid).status = "in") :
    (currentStatusOf hist aid).status = "out" := by
  unfold currentStatusOf at *
  cases hl : latestInOut hist aid with
  | none => rfl
  | some r =>
      rw [hl] at h
      have hio := (latestInOut_spec hist aid r hl).2.1
      unfold isInOutFor at hio
      simp only [Bool.and_eq_true, Bool.or_eq_true, beq_iff_eq] at hio
      rcases hio.2 with hin | hout
      · exact absurd (by simpa [statusOfRow] using hin) h
      · simpa [statusOfRow] using hout

/-- The engine state reached inside a local-mode `flag_asset` call right
after the `flagged` scan has been recorded (flag columns updated, two
queue entries appended, clock advanced by four ticks). -/
def flagMidL (p : Bool) (la : List Row) (lh : List ScanRow) (lq : List QueueEntry)
    (lns lnq : Nat) (ra : List Row) (rh : List ScanRow) (rns c : Nat)
    (aid notes tech : String) : EngineState :=
  ⟨true, true,
    ⟨assetsUpdate la aid
        [("flag_status", .n 1), ("flag_notes", .s notes),
         ("flag_timestamp", .n c), ("flag_tech", .s tech)],
      lh ++ [⟨lns, aid, "flagged", c + 2, notes, tech, some "Out"⟩],
      (lq ++ [⟨lnq, "UPDATE", "assets",
          some [("asset_id", .s aid), ("flag_status", .n 1), ("flag_notes", .s notes),
                ("flag_timestamp", .n c), ("flag_tech", .s tech)], c + 1⟩]) ++
        [⟨lnq + 1, "INSERT", "scan_history",
          some (scanPayload aid "flagged" tech notes (some "Out") (c + 2)), c + 3⟩],
      lns + 1, lnq + 2⟩,
    ⟨ra, rh, rns⟩, c + 4⟩

/-- The engine state reached inside a connected-mode `flag_asset` call
right after the `flagged` scan has been recorded against Remote. -/
def flagMidR (p : Bool) (la : List Row) (lh : List ScanRow) (lq : List QueueEntry)
    (lns lnq : Nat) (ra : List Row) (rh : List ScanRow) (rns c : Nat)
    (aid notes tech : String) : EngineState :=
  ⟨false, p,
    ⟨la, lh, lq, lns, lnq⟩,
    ⟨assetsUpdate ra aid
        [("flag_status", .b true), ("flag_notes", .s notes),
         ("flag_timestamp", .n c), ("flag_tech", .s tech)],
      rh ++ [⟨rns, aid, "flagged", c + 1, notes, tech, some "Out"⟩], rns + 1⟩,
    c + 2⟩

/-- Unfolded shape of `flag_asset` in local mode: it returns `True`,
stays local, and appends a `flagged` scan at `clock + 2` — followed, when
the derived status was `in`, by the automatic `out` scan at `clock + 4`. -/
theorem flag_asset_shape_local (s : EngineState) (hU : s.usingLocal = true)
    (aid notes tech : String) :
    (flag_asset s aid notes tech .up).2 = true ∧
    (flag_asset s aid notes tech .up).1.usingLocal = true ∧
    (flag_asset s aid notes tech .up).1.localDB.history =
      (if (currentStatusOf s.localDB.history aid).status == "in" then
        s.localDB.history ++
          [{ id := s.localDB.nextScanId, asset_id := aid, status := "flagged",
             timestamp := s.clock + 2, notes := notes, tech_name := tech,
             site := some "Out" },
           { id := s.localDB.nextScanId + 1, asset_id := aid, status := "out",
             timestamp := s.clock + 4,
             notes := "Automatically checked out due to flagging: " ++ notes,
             tech_name := tech, site := some "Out" }]
      else
        s.localDB.history ++
          [{ id := s.localDB.nextScanId, asset_id := aid, status := "flagged",
             timestamp := s.clock + 2, notes := notes, tech_name := tech,
             site := some "Out" }]) := by
  obtain ⟨u, p, ⟨la, lh, lq, lns, lnq⟩, ⟨ra, rh, rns⟩, c⟩ := s
  cases hU
  have hIf : flag_asset ⟨true, p, ⟨la, lh, lq, lns, lnq⟩, ⟨ra, rh, rns⟩, c⟩
        aid notes tech .up =
      (if (currentStatusOf lh aid).status == "in" then
        (record_scan (flagMidL p la lh lq lns lnq ra rh rns c aid notes tech)
          aid "out" tech ("Automatically checked out due to flagging: " ++ notes)
          (some "Out") .up).1
      else flagMidL p la lh lq lns lnq ra rh rns c aid notes tech, true) := rfl
  by_cases hin : ((currentStatusOf lh aid).status == "in") = true
  · refine ⟨by rw [hIf], ?_, ?_⟩
    · rw [hIf]
      dsimp only
      rw [if_pos hin]
      rfl
    · rw [hIf]
      dsimp only
      rw [if_pos hin, if_pos hin]
      rw [show (record_scan (flagMidL p la lh lq lns lnq ra rh rns c aid notes tech)
          aid "out" tech ("Automatically checked out due to flagging: " ++ notes)
          (some "Out") .up).1.localDB.history =
          (lh ++ [⟨lns, aid, "flagged", c + 2, notes, tech, some "Out"⟩]) ++
            [⟨lns + 1, aid, "out", c + 4,
              "Automatically checked out due to flagging: " ++ notes, tech,
              some "Out"⟩] from rfl]
      rw [List.append_assoc]
      rfl
  · refine ⟨by rw [hIf], ?_, ?_⟩
    · rw [hIf]
      dsimp only
      rw [if_neg hin]
      rfl
    · rw [hIf]
      dsimp only
      rw [if_neg hin, if_neg hin]
      rfl

/-- Unfolded shape of `flag_asset` in connected mode: the `flagged` scan
lands at `clock + 1` and the automatic `out` scan at `clock + 2`. -/
theorem flag_asset_shape_remote (s : EngineState) (hU : s.usingLocal = false)
    (aid notes tech : String) :
    (flag_asset s aid notes tech .up).2 = true ∧
    (flag_asset s aid notes tech .up).1.usingLocal = false ∧
    (flag_asset s aid notes tech .up).1.remote.history =
      (if (currentStatusOf s.remote.history aid).status == "in" then
        s.remote.history ++
          [{ id := s.remote.nextScanId, asset_id := aid, status := "flagged",
             timestamp := s.clock + 1, notes := notes, tech_name := tech,
             site := some "Out" },
           { id := s.remote.nextScanId + 1, asset_id := aid, status := "out",
             timestamp := s.clock + 2,
             notes := "Automatically checked out due to flagging: " ++ notes,
             tech_name := tech, site := some "Out" }]
      else
        s.remote.history ++
          [{ id := s.remote.nextScanId, asset_id := aid, status := "flagged",
             timestamp := s.clock + 1, notes := notes, tech_name := tech,
             site := some "Out" }]) := by
  obtain ⟨u, p, ⟨la, lh, lq, lns, lnq⟩, ⟨ra, rh, rns⟩, c⟩ := s
  cases hU
  have hIf : flag_asset ⟨false, p, ⟨la, lh, lq, lns, lnq⟩, ⟨ra, rh, rns⟩, c⟩
        aid notes tech .up =
      (if (currentStatusOf rh aid).status == "in" then
        (record_scan (flagMidR p la lh lq lns lnq ra rh rns c aid notes tech)
          aid "out" tech ("Automatically checked out due to flagging: " ++ notes)
          (some "Out") .up).1
      else flagMidR p la lh lq lns lnq ra rh rns c aid notes tech, true) := rfl
  by_cases hin : ((currentStatusOf rh aid).status == "in") = true
  · refine ⟨by rw [hIf], ?_, ?_⟩
    · rw [hIf]
      dsimp only
      rw [if_pos hin]
      rfl
    · rw [hIf]
      dsimp only
      rw [if_pos hin, if_pos hin]
      rw [show (record_scan (flagMidR p la lh lq lns lnq ra rh rns c aid notes tech)
          aid "out" tech ("Automatically checked out due to flagging: " ++ notes)
          (some "Out") .up).1.remote.history =
          (rh ++ [⟨rns, aid, "flagged", c + 1, notes, tech, some "Out"⟩]) ++
            [⟨rns + 1, aid, "out", c + 2,
              "Automatically checked out due to flagging: " ++ notes, tech,
              some "Out"⟩] from rfl]
      rw [List.append_assoc]
      rfl
  · refine ⟨by rw [hIf], ?_, ?_⟩
    · rw [hIf]
      dsimp only
      rw [if_neg hin]
      rfl
    · rw [hIf]
      dsimp only
      rw [if_neg hin, if_neg hin]
      rfl

/-- After appending a non-`in`/`out` row and then a newer `out` row, the
derived status is `out`. -/
theorem status_after_flag (hist : List ScanRow) (aid : String) (f o : ScanRow)
    (hf : isInOutFor aid f = false)
    (ho : isInOutFor aid o = true)
    (hbig : ∀ x ∈ hist, isInOutFor aid x = true → x.timestamp < o.timestamp)
    (hostatus : o.status = "out") :
    (currentStatusOf (hist ++ [f, o]) aid).status = "out" := by
  have h1 : hist ++ [f, o] = (hist ++ [f]) ++ [o] := by simp
  rw [h1]
  unfold currentStatusOf
  have hlat : latestInOut ((hist ++ [f]) ++ [o]) aid = some o := by
    apply latestInOut_append_big (hist ++ [f]) aid o ho
    intro x hx hio
    rcases List.mem_append.mp hx with hmem | hmem
    · exact hbig x hmem hio
    · have hxf : x = f := by simpa using hmem
      subst hxf
      rw [hf] at hio
      cases hio
  rw [hlat]
  exact hostatus

/-- Appending a non-`in`/`out` row when the derived status was not `in`
leaves the derived status `out`. -/
theorem status_after_flag_noin (hist : List ScanRow) (aid : String) (f : ScanRow)
    (hf : isInOutFor aid f = false)
    (hnotin : ¬ (currentStatusOf hist aid).status = "in") :
    (currentStatusOf (hist ++ [f]) aid).status = "out" := by
  have hsame : currentStatusOf (hist ++ [f]) aid = currentStatusOf hist aid := by
    unfold currentStatusOf
    rw [latestInOut_append_skip hist aid f hf]
  rw [hsame]
  exact currentStatusOf_status_out hist aid hnotin

/-- C10: `flag_asset` always returns `True` and appends a `flagged`
ScanEvent with site `Out`; when the asset's derived current status was
`in` at the time of the call it additionally appends an `out` ScanEvent
after (newer than) the `flagged` one, and in every case the asset's
derived current status after the call is `out`. -/
theorem flag_auto_checkout (s : EngineState) (aid flagNotes flagTech : String)
    (hwf : ∀ x ∈ activeHistory s, x.timestamp < s.clock) :
    (flag_asset s aid flagNotes flagTech .up).2 = true ∧
    (∃ fRow : ScanRow, fRow.asset_id = aid ∧ fRow.status = "flagged" ∧
      fRow.site = some "Out" ∧
      (((currentStatusOf (activeHistory s) aid).status = "in" ∧
        ∃ oRow : ScanRow, oRow.asset_id = aid ∧ oRow.status = "out" ∧
          fRow.timestamp < oRow.timestamp ∧
          activeHistory (flag_asset s aid flagNotes flagTech .up).1 =
            activeHistory s ++ [fRow, oRow]) ∨
       (¬ (currentStatusOf (activeHistory s) aid).status = "in" ∧
        activeHistory (flag_asset s aid flagNotes flagTech .up).1 =
          activeHistory s ++ [fRow]))) ∧
    (currentStatusOf (activeHistory (flag_asset s aid flagNotes flagTech .up).1) aid).status
      = "out" := by
  by_cases hU : s.usingLocal = true
  · obtain ⟨hret, hloc, hhist⟩ := flag_asset_shape_local s hU aid flagNotes flagTech
    have hact : activeHistory s = s.localDB.history := by
      unfold activeHistory; rw [hU]; rfl
    have hact2 : activeHistory (flag_asset s aid flagNotes flagTech .up).1 =
        (flag_asset s aid flagNotes flagTech .up).1.localDB.history := by
      unfold activeHistory; rw [hloc]; rfl
    by_cases hin : (currentStatusOf s.localDB.history aid).status = "in"
    · have hinb : ((currentStatusOf s.localDB.history aid).status == "in") = true := by
        simp [hin]
      rw [hinb, if_pos rfl] at hhist
      refine ⟨hret, ⟨⟨s.localDB.nextScanId, aid, "flagged", s.clock + 2, flagNotes,
        flagTech, some "Out"⟩, rfl, rfl, rfl,
        Or.inl ⟨by rw [hact]; exact hin,
          ⟨s.localDB.nextScanId + 1, aid, "out", s.clock + 4,
            "Automatically checked out due to flagging: " ++ flagNotes,
            flagTech, some "Out"⟩, rfl, rfl,
          by dsimp only; omega, by rw [hact2, hact, hhist]⟩⟩, ?_⟩
      rw [hact2, hhist]
      apply status_after_flag
      · simp [isInOutFor]
      · simp [isInOutFor]
      · intro x hx _
        have := hwf x (by rw [hact]; exact hx)
        dsimp only
        omega
      · rfl
    · have hinb : ((currentStatusOf s.localDB.history aid).status == "in") = false := by
        simpa using hin
      rw [hinb] at hhist
      simp only [Bool.false_eq_true, if_false] at hhist
      refine ⟨hret, ⟨⟨s.localDB.nextScanId, aid, "flagged", s.clock + 2, flagNotes,
        flagTech, some "Out"⟩, rfl, rfl, rfl,
        Or.inr ⟨by rw [hact]; exact hin,
          by rw [hact2, hact, hhist]⟩⟩, ?_⟩
      rw [hact2, hhist]
      apply status_after_flag_noin
      · simp [isInOutFor]
      · exact hin
  · have hU' : s.usingLocal = false := by
      cases hv : s.usingLocal
      · rfl
      · exact absurd hv hU
    obtain ⟨hret, hloc, hhist⟩ := flag_asset_shape_remote s hU' aid flagNotes flagTech
    have hact : activeHistory s = s.remote.history := by
      unfold activeHistory; rw [hU']; rfl
    have hact2 : activeHistory (flag_asset s aid flagNotes flagTech .up).1 =
        (flag_asset s aid flagNotes flagTech .up).1.remote.history := by
      unfold activeHistory; rw [hloc]; rfl
    by_cases hin : (currentStatusOf s.remote.history aid).status = "in"
    · have hinb : ((currentStatusOf s.remote.history aid).status == "in") = true := by
        simp [hin]
      rw [hinb, if_pos rfl] at hhist
      refine ⟨hret, ⟨⟨s.remote.nextScanId, aid, "flagged", s.clock + 1, flagNotes,
        flagTech, some "Out"⟩, rfl, rfl, rfl,
        Or.inl ⟨by rw [hact]; exact hin,
          ⟨s.remote.nextScanId + 1, aid, "out", s.clock + 2,
            "Automatically checked out due to flagging: " ++ flagNotes,
            flagTech, some "Out"⟩, rfl, rfl,
          by dsimp only; omega, by rw [hact2, hact, hhist]⟩⟩, ?_⟩
      rw [hact2, hhist]
      apply status_after_flag
      · simp [isInOutFor]
      · simp [isInOutFor]
      · intro x hx _
        have := hwf x (by rw [hact]; exact hx)
        dsimp only
        omega
      · rfl
    · have hinb : ((currentStatusOf s.remote.history aid).status == "in") = false := by
        simpa using hin
      rw [hinb] at hhist
      simp only [Bool.false_eq_true, if_false] at hhist
      refine ⟨hret, ⟨⟨s.remote.nextScanId, aid, "flagged", s.clock + 1, flagNotes,
        flagTech, some "Out"⟩, rfl, rfl, rfl,
        Or.inr ⟨by rw [hact]; exact hin,
          by rw [hact2, hact, hhist]⟩⟩, ?_⟩
      rw [hact2, hhist]
      apply status_after_flag_noin
      · simp [isInOutFor]
      · exact hin

/-- A degraded state whose asset `A` is currently checked in. -/
def sC10 : EngineState :=
  { usingLocal := true, pendingSync := false,
    localDB := { assets := [[("asset_id", Value.s "A")]],
                 history := [{ id := 0, asset_id := "A", status := "in", timestamp := 1,
                               notes := "", tech_name := "t", site := some "Lab" }],
                 queue := [], nextScanId := 1, nextQueueId := 1 },
    remote := { assets := [], history := [], nextScanId := 0 },
    clock := 5 }

/-- C10 (witness): flagging the checked-in asset of `sC10` succeeds and
leaves its derived status `out`. -/
theorem flag_auto_checkout_witness :
    (flag_asset sC10 "A" "broken fan" "tech1" .up).2 = true ∧
    (currentStatusOf (activeHistory (flag_asset sC10 "A" "broken fan" "tech1" .up).1)
        "A").status = "out" := by
  have h := flag_auto_checkout sC10 "A" "broken fan" "tech1" (by decide)
  exact ⟨h.1, h.2.2⟩

/-! ## C2 continued: fallback across every mutating operation -/

/-- C8 (amended): no engine operation — CRUD call, scan recording,
flagging, deletes, a connectivity tick with its push replay — ever
updates or deletes an existing ScanEvent row in either store: along any
sequence of operations both histories only grow by appending, and
`hard_delete_asset` in particular removes only the asset row, leaving
both scan histories exactly unchanged.  The pull refresh
(`_sync_central_to_local`), however, wholesale-replaces the local
ScanEvent table with the remote recent window and can drop locally
visible rows. -/
theorem history_append_only :
    (∀ (s : EngineState) (ops : List Op),
        s.localDB.history <+: (steps s ops).localDB.history ∧
        s.remote.history <+: (steps s ops).remote.history) ∧
    (∀ (s : EngineState) (aid : String) (h : PgHealth),
        (hard_delete_asset s aid h).1.localDB.history = s.localDB.history ∧
        (hard_delete_asset s aid h).1.remote.history = s.remote.history) := by
  constructor
  · intro s ops
    induction ops generalizing s with
    | nil => exact histMono_refl s
    | cons op rest ih => exact histMono_trans (histMono_step s op) (ih (step s op))
  · intro s aid h
    unfold hard_delete_asset
    dsimp only
    split
    · refine ⟨?_, ?_⟩
      · rw [(recordOperation_history _ _ _ _).1]
        exact (get_connection_history s h).1
      · rw [(recordOperation_history _ _ _ _).2]
        exact (get_connection_history s h).2
    · split
      · exact get_connection_history s h
      · exact get_connection_history s h

end BenchInventory
